import Mathlib

/-!
# Verification of the fund_monitor estimation core

A shallow embedding, over `ℚ` for JS numbers and `List Char` for JS strings,
of the holdings parser (`src/utils/holdings.ts`), the quote symbol normalizer
(`src/utils/quote.ts`), the blended return estimator (`src/utils/estimate.ts`),
the trading-time predicate (`src/utils/time.ts`) and the per-fund selection /
recording logic of `refreshAll` (`src/stores/fundStore.ts`).

Conventions:
* JS `number` is modelled by `ℚ`; `Number.isFinite` is identically true on `ℚ`
  and is noted in a comment wherever the source checks it.
* JS `string` is modelled by `List Char` (wrapped in `String` at the API
  boundary where convenient).
* Values read from the environment (`Date.now()`, the wall clock used by
  `isTradingTime`, the timestamp produced by `Date.parse`) enter the
  definitions as explicit parameters.
-/

namespace FundMonitor

/-- Whitespace characters recognised by JS `trim()` / `\s` (the subset that
can actually occur in this code base: ASCII whitespace, NBSP and the
ideographic space). -/
def jsSpace (c : Char) : Bool :=
  c = ' ' || c = '\t' || c = '\n' || c = '\r' ||
  c = '\x0b' || c = '\x0c' || c = ' ' || c = '　'

/-- JS `String.prototype.trim`: drop leading and trailing whitespace. -/
def jsTrim (l : List Char) : List Char :=
  ((l.dropWhile jsSpace).reverse.dropWhile jsSpace).reverse

/-- ASCII lower-casing, as JS `toLowerCase` acts on the characters used here. -/
def jsLowerChar (c : Char) : Char :=
  if 'A' ≤ c ∧ c ≤ 'Z' then Char.ofNat (c.toNat + 32) else c

def jsLower (l : List Char) : List Char := l.map jsLowerChar

/-- ASCII decimal digit test (JS regex `\d`). -/
def isDig (c : Char) : Bool := '0' ≤ c && c ≤ '9'

/- ### Freshness & weighting policy (`src/utils/estimate.ts`) -/

/-- `computeFreshnessFactor`, expressed on the already computed age in days
(the source computes `ageDays = Math.max(0, (Date.now() - ts) / 86400000)`
and then applies exactly this function). -/
def freshnessOfAge (ageDays : ℚ) : ℚ :=
  if ageDays ≤ 45 then 1
  else max 0.65 (1 - ((ageDays - 45) / 365) * 0.35)

/-- `computeFreshnessFactor(holdingsDate)` with the call to
`parseHoldingsDateToTs` abstracted to its result `ts` (`none` models an
unparseable label, for which the source returns `null`) and `Date.now()`
passed in as `now`.  The source tests `if (!ts) return 1`, which is also
taken for the falsy timestamp `0`. -/
def computeFreshnessFactor (ts : Option ℚ) (now : ℚ) : ℚ :=
  match ts with
  | none => 1
  | some t =>
    if t = 0 then 1
    else freshnessOfAge (max 0 ((now - t) / (24 * 3600 * 1000)))

/- ### Quote symbol normalization (`src/utils/quote.ts`) -/

/-- `/^(sh|sz|bj)\d{6}$/.test raw`. -/
def tagTest (l : List Char) : Bool :=
  match l with
  | a :: b :: rest =>
    ((a = 's' && b = 'h') || (a = 's' && b = 'z') || (a = 'b' && b = 'j')) &&
      rest.length = 6 && rest.all isDig
  | _ => false

/-- `/^\d{6}$/.test raw`. -/
def digits6Test (l : List Char) : Bool :=
  l.length = 6 && l.all isDig

/-- `normalizeQuoteSymbol` from `src/utils/quote.ts`. -/
def normalizeQuoteSymbol (input : String) : Option String :=
  let raw := jsLower (jsTrim input.data)
  if raw = [] then none
  else if tagTest raw then some (String.mk raw)
  else if digits6Test raw then
    match raw with
    | c :: _ =>
      if c = '6' then some (String.mk ('s' :: 'h' :: raw))
      else if c = '0' ∨ c = '3' then some (String.mk ('s' :: 'z' :: raw))
      else if c = '8' ∨ c = '4' then some (String.mk ('b' :: 'j' :: raw))
      else none
    | [] => none
  else none

/-- Specification-side predicate: the string already consists of a valid
two-letter exchange tag (`sh`/`sz`/`bj`) followed by exactly six ASCII
digits. -/
def ValidTagged (l : List Char) : Prop :=
  ∃ t ds, (t = ['s', 'h'] ∨ t = ['s', 'z'] ∨ t = ['b', 'j']) ∧
    l = t ++ ds ∧ ds.length = 6 ∧ ∀ c ∈ ds, isDig c

/-- Specification-side predicate: the string is a bare six-digit numeric
code. -/
def Bare6 (l : List Char) : Prop :=
  l.length = 6 ∧ ∀ c ∈ l, isDig c

/- ### JS `Number(...)` conversion (used by `toWeight`) -/

def digitsVal (l : List Char) : ℕ :=
  l.foldl (fun a c => 10 * a + (c.toNat - '0'.toNat)) 0

def isHexDig (c : Char) : Bool :=
  isDig c || ('a' ≤ c && c ≤ 'f') || ('A' ≤ c && c ≤ 'F')

def hexDigitVal (c : Char) : ℕ :=
  if isDig c then c.toNat - '0'.toNat
  else if 'a' ≤ c ∧ c ≤ 'f' then c.toNat - 'a'.toNat + 10
  else c.toNat - 'A'.toNat + 10

def radixVal (r : ℕ) (l : List Char) : ℕ :=
  l.foldl (fun a c => r * a + hexDigitVal c) 0

/-- The exponent part of a decimal literal, after the `e`/`E`. -/
def parseExpPart (l : List Char) : Option ℤ :=
  match l with
  | '+' :: r => if r ≠ [] ∧ r.all isDig then some (digitsVal r : ℤ) else none
  | '-' :: r => if r ≠ [] ∧ r.all isDig then some (-(digitsVal r : ℤ)) else none
  | r => if r ≠ [] ∧ r.all isDig then some (digitsVal r : ℤ) else none

/-- An unsigned decimal numeral `digits [. digits] [e exp]`; `none` is NaN. -/
def parseDecCore (l : List Char) : Option ℚ :=
  let ip := l.takeWhile isDig
  let r1 := l.dropWhile isDig
  let fp := match r1 with
    | '.' :: r => r.takeWhile isDig
    | _ => []
  let r2 := match r1 with
    | '.' :: r => r.dropWhile isDig
    | _ => r1
  if ip = [] ∧ fp = [] then none
  else
    let mant : ℚ := (digitsVal ip : ℚ) + (digitsVal fp : ℚ) / 10 ^ fp.length
    match r2 with
    | [] => some mant
    | 'e' :: r => (parseExpPart r).map (fun z => mant * (10 : ℚ) ^ z)
    | 'E' :: r => (parseExpPart r).map (fun z => mant * (10 : ℚ) ^ z)
    | _ => none

/-- An unsigned JS numeric literal: hex / octal / binary forms, `Infinity`,
or a decimal numeral. -/
def parseUnsigned (l : List Char) : Option ℚ :=
  match l with
  | '0' :: 'x' :: r => if r ≠ [] ∧ r.all isHexDig then some (radixVal 16 r : ℚ) else none
  | '0' :: 'X' :: r => if r ≠ [] ∧ r.all isHexDig then some (radixVal 16 r : ℚ) else none
  | '0' :: 'o' :: r => if r ≠ [] ∧ r.all (fun c => '0' ≤ c && c ≤ '7') then some (radixVal 8 r : ℚ) else none
  | '0' :: 'O' :: r => if r ≠ [] ∧ r.all (fun c => '0' ≤ c && c ≤ '7') then some (radixVal 8 r : ℚ) else none
  | '0' :: 'b' :: r => if r ≠ [] ∧ r.all (fun c => c = '0' || c = '1') then some (radixVal 2 r : ℚ) else none
  | '0' :: 'B' :: r => if r ≠ [] ∧ r.all (fun c => c = '0' || c = '1') then some (radixVal 2 r : ℚ) else none
  | _ =>
    if l = "Infinity".data then none  -- +Infinity: not finite, see the use sites
    else parseDecCore l

/-- JS `Number(string)`, restricted to finite results: `none` stands for NaN
and for ±Infinity alike (every use site in the source immediately discards
non-finite values through `Number.isFinite`). -/
def jsNumber (l : List Char) : Option ℚ :=
  let t := jsTrim l
  if t = [] then some 0
  else
    match t with
    | '+' :: r => if r = "Infinity".data then none else parseDecCore r
    | '-' :: r => if r = "Infinity".data then none else (parseDecCore r).map Neg.neg
    | _ => parseUnsigned t

/- ### Holdings text parser (`src/utils/holdings.ts`) -/

structure HoldingItem where
  symbol : String
  weight : ℚ
  name : Option String := none
  industry : Option String := none
  deriving Repr, DecidableEq

/-- JS `raw.replace("%", "")`: a string pattern replaces the first
occurrence only. -/
def removeFirstPercent : List Char → List Char
  | [] => []
  | c :: r => if c = '%' then r else c :: removeFirstPercent r

/-- `toWeight` from `src/utils/holdings.ts`.  `Number.isFinite(value)` is
false exactly when `jsNumber` returns `none` here. -/
def toWeight (raw : List Char) : Option ℚ :=
  let cleaned := jsTrim (removeFirstPercent raw)
  match jsNumber cleaned with
  | none => none
  | some v => if v ≤ 0 then none else if 1 < v then some (v / 100) else some v

/-- JS `String.prototype.split` with a single-character separator: every
occurrence splits, empty parts are kept, and the result is never empty. -/
def splitCh (sep : Char) : List Char → List (List Char)
  | [] => [[]]
  | c :: rest =>
    if c = sep then [] :: splitCh sep rest
    else
      match splitCh sep rest with
      | [] => [[c]]
      | p :: ps => (c :: p) :: ps

/-- Separator characters of the holdings line normalizer
(`/[，,;；]+/`). -/
def isSep (c : Char) : Bool := c = '，' || c = ',' || c = ';' || c = '；'

/-- JS `line.replace(/[，,;；]+/g, " ")`: each maximal run of separator
characters becomes a single space. -/
def collapseSeps : List Char → List Char
  | [] => []
  | c :: rest =>
    if isSep c then ' ' :: collapseSeps (rest.dropWhile isSep)
    else c :: collapseSeps rest
termination_by l => l.length
decreasing_by
  · exact Nat.lt_succ_of_le (List.dropWhile_suffix _).sublist.length_le
  · simp

/-- Accumulator form of splitting on runs of whitespace. -/
def wordsByAux (p : Char → Bool) : List Char → List Char → List (List Char)
  | [], acc => if acc = [] then [] else [acc.reverse]
  | c :: rest, acc =>
    if p c then
      if acc = [] then wordsByAux p rest []
      else acc.reverse :: wordsByAux p rest []
    else wordsByAux p rest (c :: acc)

/-- JS `normalized.split(/\s+/)` on an already trimmed string: the maximal
whitespace-free tokens, in order (on a trimmed input the JS split produces
no empty parts, so this agrees with it everywhere it is applied). -/
def wordsBy (p : Char → Bool) (l : List Char) : List (List Char) :=
  wordsByAux p l []

/-- The token extraction of one `parseHoldingsText` line: normalize
separators, trim, then split into the code token and the weight token (on
`":"` when present, else on whitespace), trimming both. -/
def lineTokens (line : List Char) : List Char × List Char :=
  let normalized := jsTrim (collapseSeps line)
  if normalized.contains ':' then
    let parts := splitCh ':' normalized
    (jsTrim (parts.getD 0 []), jsTrim (parts.getD 1 []))
  else
    let parts := wordsBy jsSpace normalized
    (jsTrim (parts.getD 0 []), jsTrim (parts.getD 1 []))

/-- The per-line body of the `parseHoldingsText` loop; `none` models
`continue`. -/
def lineToItem (line : List Char) : Option HoldingItem :=
  let pair := lineTokens line
  if pair.1 = [] ∨ pair.2 = [] then none
  else
    match toWeight pair.2 with
    | none => none
    | some w => some { symbol := String.mk pair.1, weight := w }

/-- `parseHoldingsText` from `src/utils/holdings.ts`.  The JS split on
`/\n+/` (runs of newlines) is realised as a split on each `'\n'`; the empty
parts this adds between consecutive newlines are removed by the same
`filter` that the source applies after trimming. -/
def parseHoldingsText (text : String) : List HoldingItem :=
  let lines := ((splitCh '\n' text.data).map jsTrim).filter (· ≠ [])
  lines.filterMap lineToItem

/-- Modelled from the spec: one re-serialized holdings line,
`symbol: <render (100 * weight)>%`.  The spec fixes only the weight part
(`weight*100` followed by `'%'`); `render` stands for the JS
number-to-string conversion. -/
def lineOf (render : ℚ → List Char) (it : HoldingItem) : List Char :=
  it.symbol.data ++ ':' :: ' ' :: (render (100 * it.weight) ++ ['%'])

/-- Modelled from the spec: the re-serialization step of the round-trip
property (§8) — one line per parsed holding, joined with newlines. -/
def serializeHoldings (render : ℚ → List Char) (items : List HoldingItem) : List Char :=
  List.intercalate ['\n'] (items.map (lineOf render))

/-- A rendering of `q` usable in the round-trip argument: a nonempty token,
free of the characters the parser splits on, which JS `Number` reads back
as exactly `q` (JS float-to-string printing has this property). -/
def GoodRender (render : ℚ → List Char) (q : ℚ) : Prop :=
  render q ≠ [] ∧
  (∀ c ∈ render q, jsSpace c = false ∧ isSep c = false ∧ c ≠ ':' ∧ c ≠ '%') ∧
  jsNumber (render q) = some q

/-- The shape every symbol produced by `parseHoldingsText` has: a
nonempty, trimmed token free of separator characters, colons and
newlines. -/
def GoodSym (sym : List Char) : Prop :=
  sym ≠ [] ∧ jsTrim sym = sym ∧ ∀ c ∈ sym, isSep c = false ∧ c ≠ ':' ∧ c ≠ '\n'

/- ### Blended return estimator (`src/utils/estimate.ts`) -/

structure StockQuote where
  symbol : String
  name : String
  price : ℚ
  prevClose : ℚ
  time : String
  deriving Repr, DecidableEq

structure NavMetrics where
  ret1m : Option ℚ := none
  ret3m : Option ℚ := none
  ret1y : Option ℚ := none
  sharpe : Option ℚ := none
  maxDrawdown : Option ℚ := none
  deriving Repr, DecidableEq

inductive ValuationSource where
  | eastmoney
  | holdings
  deriving Repr, DecidableEq

structure FundEstimate where
  code : String
  name : String
  gsz : Option ℚ
  gszzl : Option ℚ
  gztime : String
  coverage : ℚ
  cashRatio : ℚ
  holdingsDate : Option String := none
  baseNav : Option ℚ := none
  navMetrics : Option NavMetrics := none
  stale : Option Bool := none
  cachedAt : Option ℚ := none
  actualZzl : Option ℚ := none
  actualDate : Option String := none
  holdings : Option (List HoldingItem) := none
  valuationSource : Option ValuationSource := none
  quoteTime : Option String := none
  fundType : Option String := none
  benchmarkSymbol : Option String := none
  strategyVersion : Option String := none
  deriving Repr, DecidableEq

/-- The parameter object of `buildFundEstimate`.  `holdingsDateTs` carries
the result of `parseHoldingsDateToTs holdingsDate` (timestamp parsing is
environment/locale work, abstracted to its `Option` result), `now` is
`Date.now()` and `nowLabel` is `formatDateTime(Date.now())`. -/
structure EstimateParams where
  code : String
  name : Option String := none
  holdings : List HoldingItem
  quotes : String → Option StockQuote
  cashRatio : ℚ
  baseNav : Option ℚ := none
  navMetrics : Option NavMetrics := none
  holdingsDate : Option String := none
  stale : Option Bool := none
  cachedAt : Option ℚ := none
  actualZzl : Option ℚ := none
  actualDate : Option String := none
  fundType : Option String := none
  benchmarkSymbol : Option String := none
  benchmarkReturn : Option ℚ := none
  strategyVersion : Option String := none
  holdingsDateTs : Option ℚ := none
  now : ℚ := 0
  nowLabel : String := ""

/-- Lexicographic string comparison (JS `>` on strings, by code unit;
the strings compared here are ASCII `HH:MM` stamps). -/
def strGtCL : List Char → List Char → Bool
  | [], _ => false
  | _ :: _, [] => true
  | a :: as, b :: bs =>
    if b.toNat < a.toNat then true
    else if a.toNat < b.toNat then false
    else strGtCL as bs

def jsStrGt (a b : String) : Bool := strGtCL a.data b.data

structure MatchAcc where
  contrib : ℚ
  weight : ℚ
  time : String
  deriving Repr, DecidableEq

/-- One iteration of the matching loop of `buildFundEstimate` (steps over
one holding; `Number.isFinite prevClose` is identically true on `ℚ`, so the
skip condition reduces to `prevClose <= 0`). -/
def matchStep (quotes : String → Option StockQuote) (acc : MatchAcc) (h : HoldingItem) : MatchAcc :=
  match quotes h.symbol with
  | none => acc
  | some q =>
    if q.prevClose ≤ 0 then acc
    else
      { contrib := acc.contrib + h.weight * ((q.price - q.prevClose) / q.prevClose)
        weight := acc.weight + h.weight
        time := if q.time ≠ "" ∧ jsStrGt q.time acc.time then q.time else acc.time }

def matchedAcc (p : EstimateParams) : MatchAcc :=
  p.holdings.foldl (matchStep p.quotes) ⟨0, 0, ""⟩

def matchedContribOf (p : EstimateParams) : ℚ := (matchedAcc p).contrib

def matchedWeightOf (p : EstimateParams) : ℚ := (matchedAcc p).weight

def quoteTimeStrOf (p : EstimateParams) : String := (matchedAcc p).time

/-- `cashRatioDecimal`: the clamp of `cashRatio` to `[0,1]`
(`Number.isFinite` is identically true on `ℚ`). -/
def cashRatioDecimalOf (p : EstimateParams) : ℚ := min 1 (max 0 p.cashRatio)

def equityRatioOf (p : EstimateParams) : ℚ := max 0 (1 - cashRatioDecimalOf p)

def holdingsDrivenReturnOf (p : EstimateParams) : Option ℚ :=
  if 0 < matchedWeightOf p then
    some ((matchedContribOf p / matchedWeightOf p) * equityRatioOf p)
  else none

/-- Does `l` start with `pat`? -/
def startsWithCL : List Char → List Char → Bool
  | _, [] => true
  | [], _ :: _ => false
  | c :: r, p :: ps => c = p && startsWithCL r ps

/-- Substring test (each regex in `inferBenchmarkSymbol` and
`inferHoldingsWeight` is a plain alternation of literals). -/
def containsSub (pat : List Char) : List Char → Bool
  | [] => pat.isEmpty
  | c :: r => startsWithCL (c :: r) pat || containsSub pat r

def testAny (pats : List String) (text : List Char) : Bool :=
  pats.any (fun p => containsSub p.data text)

/-- `inferBenchmarkSymbol` from `src/utils/estimate.ts`. -/
def inferBenchmarkSymbol (name : Option String) (fundType : Option String) : String :=
  let text := (name.getD "").data ++ ' ' :: (fundType.getD "").data
  if testAny ["中证1000", "1000"] text then "sh000852"
  else if testAny ["中证500", "500"] text then "sh000905"
  else if testAny ["上证50", "50"] text then "sh000016"
  else if testAny ["创业板"] text then "sz399006"
  else if testAny ["深证", "深成"] text then "sz399001"
  else "sh000300"

/-- `inferHoldingsWeight` from `src/utils/estimate.ts`. -/
def inferHoldingsWeight (fundType : Option String) : ℚ :=
  let text := (fundType.getD "").data
  if testAny ["指数", "ETF"] text then 0.25
  else if testAny ["混合"] text then 0.65
  else 0.8

def benchmarkSymbolOf (p : EstimateParams) : String :=
  p.benchmarkSymbol.getD (inferBenchmarkSymbol p.name p.fundType)

/-- `proxyStockReturn`: the caller-supplied benchmark return when present
(`Number.isFinite` is false on JS `undefined`/`null`, modelled by `none`,
and identically true on `ℚ`), else the matched average, else `0`. -/
def proxyStockReturnOf (p : EstimateParams) : ℚ :=
  match p.benchmarkReturn with
  | some b => b
  | none => if 0 < matchedWeightOf p then matchedContribOf p / matchedWeightOf p else 0

def proxyDrivenReturnOf (p : EstimateParams) : ℚ :=
  proxyStockReturnOf p * equityRatioOf p

def freshnessOf (p : EstimateParams) : ℚ :=
  computeFreshnessFactor p.holdingsDateTs p.now

def holdingsWeightOf (p : EstimateParams) : ℚ :=
  match holdingsDrivenReturnOf p with
  | none => 0
  | some _ => inferHoldingsWeight p.fundType * freshnessOf p

def proxyWeightOf (p : EstimateParams) : ℚ := 1 - holdingsWeightOf p

def finalReturnOf (p : EstimateParams) : ℚ :=
  match holdingsDrivenReturnOf p with
  | none => proxyDrivenReturnOf p
  | some h => h * holdingsWeightOf p + proxyDrivenReturnOf p * proxyWeightOf p

/-- `holdings.reduce((sum, h) => sum + h.weight, 0)`. -/
def totalWeightOf (p : EstimateParams) : ℚ :=
  p.holdings.foldl (fun s h => s + h.weight) 0

def coverageOf (p : EstimateParams) : ℚ :=
  if 0 < totalWeightOf p then matchedWeightOf p / totalWeightOf p else 0

/-- `buildFundEstimate` from `src/utils/estimate.ts`.  In `gsz`, the JS
guard `params.baseNav && Number.isFinite(params.baseNav)` is false for a
missing `baseNav` and for the falsy value `0`; in `gszzl`,
`Number.isFinite(finalReturn)` is identically true on `ℚ`. -/
def buildFundEstimate (p : EstimateParams) : FundEstimate :=
  { code := p.code
    name := p.name.getD p.code
    gsz :=
      match p.baseNav with
      | some v => if v = 0 then none else some (v * (1 + finalReturnOf p))
      | none => none
    gszzl := some (finalReturnOf p * 100)
    gztime := p.nowLabel
    coverage := coverageOf p
    cashRatio := p.cashRatio
    holdingsDate := p.holdingsDate
    baseNav := p.baseNav
    navMetrics := p.navMetrics
    stale := p.stale
    cachedAt := p.cachedAt
    actualZzl := p.actualZzl
    actualDate := p.actualDate
    holdings := some p.holdings
    valuationSource := some .holdings
    quoteTime := if quoteTimeStrOf p = "" then none else some (quoteTimeStrOf p)
    fundType := p.fundType
    benchmarkSymbol := some (benchmarkSymbolOf p)
    strategyVersion := some (p.strategyVersion.getD "improved_v1") }

/- ### Trading-time predicate (`src/utils/storage.ts` / `src/utils/time.ts`) -/

/-- The wall clock observed by `refreshAll` (`new Date()` / `Date.now()`):
`day` is `getDay()` (0 = Sunday), `nowTs` is `Date.now()` and `nowLabel`
is `formatDateTime(Date.now())`. -/
structure WallClock where
  day : ℕ
  hour : ℕ
  minute : ℕ
  nowTs : ℚ := 0
  nowLabel : String := ""
  deriving Repr, DecidableEq

/-- `isTradingTime`. -/
def isTradingTime (c : WallClock) : Bool :=
  if c.day = 0 ∨ c.day = 6 then false
  else
    let totalMin := c.hour * 60 + c.minute
    (decide (9 * 60 + 15 ≤ totalMin) && decide (totalMin ≤ 11 * 60 + 30)) ||
    (decide (13 * 60 ≤ totalMin) && decide (totalMin ≤ 15 * 60))

/-- `String(n).padStart(2, "0")` for the hour/minute fields. -/
def pad2 (n : ℕ) : String :=
  if n < 10 then "0" ++ toString n else toString n

/-- The `HH:MM` stamp `refreshAll` builds for the intraday recorder. -/
def timeStrOf (c : WallClock) : String := pad2 c.hour ++ ":" ++ pad2 c.minute

/- ### Per-fund selection and recording (`src/stores/fundStore.ts`) -/

inductive ValuationMode where
  | official
  | holdings
  | smart
  deriving Repr, DecidableEq

/-- `FundGzEstimate` from `src/utils/fundGz.ts` (the official estimate
feed; `parseFundGzJsonp` guarantees `code`, `name`, `gztime` nonempty and
`gsz`, `gszzl` finite). -/
structure FundGzEstimate where
  code : String
  name : String
  gsz : ℚ
  gszzl : ℚ
  gztime : String
  dwjz : Option ℚ := none
  jzrq : Option String := none
  deriving Repr, DecidableEq

inductive LoadStatus where
  | idle
  | loading
  | success
  | error
  deriving Repr, DecidableEq

structure FundItemState where
  status : LoadStatus
  errorMessage : Option String
  lastUpdatedAt : Option ℚ
  lastRefreshStartedAt : Option ℚ
  latest : Option FundEstimate
  previous : Option FundEstimate
  deriving Repr, DecidableEq

/-- One entry of the `parsedHoldings` record built by `refreshAll` (holdings
already normalized and filtered).  `holdingsDateTs` abstracts
`parseHoldingsDateToTs holdingsDate` exactly as in `EstimateParams`. -/
structure ParsedConfig where
  holdings : List HoldingItem
  cashRatio : ℚ
  baseNav : Option ℚ := none
  holdingsDate : Option String := none
  stale : Option Bool := none
  cachedAt : Option ℚ := none
  fundName : Option String := none
  actualZzl : Option ℚ := none
  actualDate : Option String := none
  navMetrics : Option NavMetrics := none
  holdingsDateTs : Option ℚ := none

/-- `official && official.gztime && official.gztime.startsWith(todayStr)`. -/
def isOfficialAvailable (official : Option FundGzEstimate) (todayStr : String) : Bool :=
  match official with
  | none => false
  | some g => g.gztime ≠ "" && startsWithCL g.gztime.data todayStr.data

/-- The `useOfficial` three-mode dispatch of `refreshAll`
(`bestSources[code] || "eastmoney"` treats a missing and an empty best
source alike). -/
def useOfficialOf (mode : ValuationMode) (bestSource : Option String)
    (official : Option FundGzEstimate) (todayStr : String) : Bool :=
  match mode with
  | .official => isOfficialAvailable official todayStr
  | .holdings => false
  | .smart =>
    let best := match bestSource with
      | some s => if s = "" then "eastmoney" else s
      | none => "eastmoney"
    if best = "eastmoney" then isOfficialAvailable official todayStr else false

/-- The string the dedup key interpolates for `estimate.valuationSource`. -/
def sourceStr : Option ValuationSource → String
  | some .eastmoney => "eastmoney"
  | some .holdings => "holdings"
  | none => "undefined"

/-- One call to `recordIntradayValuation`. -/
structure PushRec where
  code : String
  time : String
  value : ℚ
  source : Option ValuationSource
  deriving Repr, DecidableEq

/-- The outcome of one iteration of the per-fund loop of `refreshAll`:
the stored `FundItemState`, the intraday push (if fired), the dedup-cache
write, the counter increment and the candidate batch error message. -/
structure FundOutcome where
  item : FundItemState
  push : Option PushRec
  cacheWrite : Option (String × String)
  isSuccess : Bool
  errMsg : Option String
  deriving Repr, DecidableEq

/-- The estimator inputs `refreshAll` passes for the holdings path
(`benchmarkReturn`, `fundType`, `benchmarkSymbol`, `strategyVersion` are
not supplied at this call site). -/
def estimateParamsFor (cfg : ParsedConfig) (quotes : String → Option StockQuote)
    (clock : WallClock) (code : String) : EstimateParams :=
  { code := code
    name := cfg.fundName
    holdings := cfg.holdings
    quotes := quotes
    cashRatio := cfg.cashRatio
    baseNav := cfg.baseNav
    navMetrics := cfg.navMetrics
    holdingsDate := cfg.holdingsDate
    stale := cfg.stale
    cachedAt := cfg.cachedAt
    actualZzl := cfg.actualZzl
    actualDate := cfg.actualDate
    holdingsDateTs := cfg.holdingsDateTs
    now := clock.nowTs
    nowLabel := clock.nowLabel }

/-- The body of the per-fund loop of `refreshAll` (fundStore.ts:331-457):
mode dispatch, official-estimate construction, holdings-path estimation,
coverage check, state update and intraday push. -/
def processFund (mode : ValuationMode) (bestSource : Option String)
    (official : Option FundGzEstimate) (todayStr : String)
    (config : Option ParsedConfig) (err : Option String)
    (quotes : String → Option StockQuote)
    (base : Option FundItemState) (clock : WallClock) (startedAt : ℚ)
    (cache : String → Option String) (code : String) : FundOutcome :=
  let useOfficial := useOfficialOf mode bestSource official todayStr
  let previous := ((base.bind (·.latest)).orElse (fun _ => base.bind (·.previous)))
  match useOfficial, official with
  | true, some g =>
    let estimate : FundEstimate :=
      { code := code
        name := g.name
        gsz := some g.gsz
        gszzl := some g.gszzl
        gztime := g.gztime
        coverage := 1
        cashRatio := (config.map (·.cashRatio)).getD 0
        holdingsDate := config.bind (·.holdingsDate)
        baseNav := (g.dwjz.orElse (fun _ => config.bind (·.baseNav)))
        navMetrics := config.bind (·.navMetrics)
        stale := config.bind (·.stale)
        cachedAt := config.bind (·.cachedAt)
        actualZzl := config.bind (·.actualZzl)
        actualDate := config.bind (·.actualDate)
        holdings := some ((config.map (·.holdings)).getD [])
        valuationSource := some .eastmoney
        quoteTime := some g.gztime }
    let item : FundItemState :=
      { status := .success
        errorMessage := none
        lastUpdatedAt := some clock.nowTs
        lastRefreshStartedAt := some startedAt
        latest := some estimate
        previous := previous }
    -- push only inside trading hours (fundStore.ts:383)
    match estimate.gszzl, isTradingTime clock with
    | some z, true =>
      let key := code ++ ":" ++ sourceStr estimate.valuationSource
      if cache key = some (timeStrOf clock) then ⟨item, none, none, true, none⟩
      else
        ⟨item, some ⟨code, timeStrOf clock, z, estimate.valuationSource⟩,
          some (key, timeStrOf clock), true, none⟩
    | _, _ => ⟨item, none, none, true, none⟩
  | _, _ =>
    match config, err with
    | none, e =>
      let msg := e.getD "持仓异常"
      ⟨{ status := .error
         errorMessage := some msg
         lastUpdatedAt := some clock.nowTs
         lastRefreshStartedAt := some startedAt
         latest := base.bind (·.latest)
         previous := base.bind (·.previous) }, none, none, false, some msg⟩
    | some _, some msg =>
      ⟨{ status := .error
         errorMessage := some msg
         lastUpdatedAt := some clock.nowTs
         lastRefreshStartedAt := some startedAt
         latest := base.bind (·.latest)
         previous := base.bind (·.previous) }, none, none, false, some msg⟩
    | some cfg, none =>
      let estimate := buildFundEstimate (estimateParamsFor cfg quotes clock code)
      if estimate.coverage ≤ 0 then
        let msg := "行情缺失"
        ⟨{ status := .error
           errorMessage := some msg
           lastUpdatedAt := some clock.nowTs
           lastRefreshStartedAt := some startedAt
           latest := base.bind (·.latest)
           previous := base.bind (·.previous) }, none, none, false, some msg⟩
      else
        let item : FundItemState :=
          { status := .success
            errorMessage := none
            lastUpdatedAt := some clock.nowTs
            lastRefreshStartedAt := some startedAt
            latest := some estimate
            previous := previous }
        -- no trading-time gate on this push site (fundStore.ts:448)
        match estimate.gszzl with
        | some z =>
          let key := code ++ ":" ++ sourceStr estimate.valuationSource
          if cache key = some (timeStrOf clock) then ⟨item, none, none, true, none⟩
          else
            ⟨item, some ⟨code, timeStrOf clock, z, estimate.valuationSource⟩,
              some (key, timeStrOf clock), true, none⟩
        | none => ⟨item, none, none, true, none⟩

/-- The per-code inputs gathered by `refreshAll` before the loop
(`bestSources`, `officialMap`, `parsedHoldings`, `fundErrors`). -/
structure FundInputs where
  bestSource : Option String := none
  official : Option FundGzEstimate := none
  config : Option ParsedConfig := none
  err : Option String := none

/-- The accumulated state of the per-fund loop. -/
structure BatchState where
  funds : String → Option FundItemState
  success : ℕ
  error : ℕ
  anyErrorMessage : Option String
  cache : String → Option String
  pushes : List PushRec

def refreshStep (mode : ValuationMode) (inputs : String → FundInputs)
    (quotes : String → Option StockQuote) (todayStr : String)
    (clock : WallClock) (startedAt : ℚ)
    (baseFunds : String → Option FundItemState)
    (st : BatchState) (code : String) : BatchState :=
  let i := inputs code
  let o := processFund mode i.bestSource i.official todayStr i.config i.err
    quotes (baseFunds code) clock startedAt st.cache code
  { funds := fun c => if c = code then some o.item else st.funds c
    success := st.success + (if o.isSuccess then 1 else 0)
    error := st.error + (if o.isSuccess then 0 else 1)
    anyErrorMessage := st.anyErrorMessage.orElse (fun _ => o.errMsg)
    cache :=
      match o.cacheWrite with
      | some kv => fun c => if c = kv.1 then some kv.2 else st.cache c
      | none => st.cache
    pushes := st.pushes ++ o.push.toList }

/-- The per-fund loop of `refreshAll` over a normalized code list:
`baseFunds` is the store snapshot taken before the loop and `cache0` the
process-wide `intradaySentCache`. -/
def refreshLoop (mode : ValuationMode) (inputs : String → FundInputs)
    (quotes : String → Option StockQuote) (todayStr : String)
    (clock : WallClock) (startedAt : ℚ)
    (baseFunds : String → Option FundItemState)
    (cache0 : String → Option String) (codes : List String) : BatchState :=
  codes.foldl (refreshStep mode inputs quotes todayStr clock startedAt baseFunds)
    ⟨baseFunds, 0, 0, none, cache0, []⟩

/- ### Specification-side definitions -/

/-- The holding has a matching quote whose `prevClose` is positive (and
finite, which is automatic on `ℚ`). -/
def usableB (quotes : String → Option StockQuote) (h : HoldingItem) : Bool :=
  match quotes h.symbol with
  | some q => decide (0 < q.prevClose)
  | none => false

/-- The matched weight `M` of the coverage specification: the sum of the
weights of the holdings with a usable quote. -/
def matchedWeightSpec (p : EstimateParams) : ℚ :=
  (p.holdings.map (fun h => if usableB p.quotes h then h.weight else 0)).sum

/-- The canonical form the symbol normalizer works on: the input trimmed
and ASCII-lowercased. -/
def canonSym (s : String) : List Char :=
  jsLower (jsTrim s.data)

/-- The holdings path of `processFund` taken with an immaterial dedup
cache: the stored per-fund state (by `processFund_item_cache_irrel`, the
state does not depend on the cache). -/
def itemOf (mode : ValuationMode) (inputs : String → FundInputs)
    (quotes : String → Option StockQuote) (todayStr : String)
    (clock : WallClock) (startedAt : ℚ)
    (baseFunds : String → Option FundItemState) (code : String) : FundItemState :=
  (processFund mode (inputs code).bestSource (inputs code).official todayStr
    (inputs code).config (inputs code).err quotes (baseFunds code) clock startedAt
    (fun _ => none) code).item

/-- A concrete quote table used to instantiate theorems with hypotheses:
`sh600000` is up 2% over its previous close of 10. -/
def sampleQuotes : String → Option StockQuote := fun s =>
  if s = "sh600000" then some ⟨"sh600000", "浦发银行", 10.2, 10, "10:05"⟩ else none

/-- Concrete estimator inputs: one disclosed holding of weight 0.6,
cash ratio 0.1, base NAV 1 (the §8 scenario of the spec). -/
def sampleParams : EstimateParams :=
  { code := "000001"
    holdings := [{ symbol := "sh600000", weight := 0.6 }]
    quotes := sampleQuotes
    cashRatio := 0.1
    baseNav := some 1 }

/-- The same inputs in the shape `refreshAll` passes around. -/
def sampleConfig : ParsedConfig :=
  { holdings := [{ symbol := "sh600000", weight := 0.6 }]
    cashRatio := 0.1
    baseNav := some 1 }

/-- A same-day official estimate for the sample fund. -/
def officialSample : FundGzEstimate :=
  { code := "000001"
    name := "样例基金"
    gsz := 1.01
    gszzl := 1
    gztime := "2026-10-10 15:00" }

/- ### Helper lemmas -/

theorem freshnessOfAge_le_one (age : ℚ) : freshnessOfAge age ≤ 1 := by
  unfold freshnessOfAge
  split
  · exact le_refl 1
  · rename_i h
    push_neg at h
    have h45 : (0 : ℚ) ≤ age - 45 := by linarith
    have h35 : (0 : ℚ) ≤ ((age - 45) / 365) * 0.35 :=
      mul_nonneg (div_nonneg h45 (by norm_num)) (by norm_num)
    exact max_le (by norm_num) (by linarith)

theorem freshnessOfAge_antitone (a b : ℚ) (hab : a ≤ b) :
    freshnessOfAge b ≤ freshnessOfAge a := by
  unfold freshnessOfAge
  by_cases hb : b ≤ 45
  · rw [if_pos (le_trans hab hb), if_pos hb]
  · rw [if_neg hb]
    push_neg at hb
    by_cases ha : a ≤ 45
    · rw [if_pos ha]
      have h45 : (0 : ℚ) ≤ b - 45 := by linarith
      have h35 : (0 : ℚ) ≤ ((b - 45) / 365) * 0.35 :=
        mul_nonneg (div_nonneg h45 (by norm_num)) (by norm_num)
      exact max_le (by norm_num) (by linarith)
    · rw [if_neg ha]
      exact max_le_max (le_refl _) (by linarith)

theorem freshnessOfAge_400_eval : freshnessOfAge 400 = 963 / 1460 := by
  unfold freshnessOfAge
  rw [if_neg (by norm_num : ¬ (400 : ℚ) ≤ 45), max_eq_right (by norm_num)]
  norm_num

theorem sample_matchedAcc :
    matchedAcc sampleParams = ⟨3 / 250, 3 / 5, "10:05"⟩ := by
  norm_num [matchedAcc, sampleParams, sampleQuotes, matchStep, jsStrGt, strGtCL]
  exact fun h => absurd h (by decide)

theorem sample_matchedWeight : matchedWeightOf sampleParams = 3 / 5 := by
  rw [matchedWeightOf, sample_matchedAcc]

theorem sample_matchedContrib : matchedContribOf sampleParams = 3 / 250 := by
  rw [matchedContribOf, sample_matchedAcc]

theorem sample_equityRatio : equityRatioOf sampleParams = 9 / 10 := by
  norm_num [equityRatioOf, cashRatioDecimalOf, sampleParams, min_def, max_def]

theorem sample_finalReturn : finalReturnOf sampleParams = 9 / 500 := by
  have hbr : sampleParams.benchmarkReturn = none := rfl
  have hw8 : inferHoldingsWeight sampleParams.fundType = 0.8 := rfl
  have hfr : freshnessOf sampleParams = 1 := rfl
  norm_num [finalReturnOf, holdingsWeightOf, proxyWeightOf, holdingsDrivenReturnOf,
    proxyDrivenReturnOf, proxyStockReturnOf, sample_matchedWeight, sample_matchedContrib,
    sample_equityRatio, hbr, hw8, hfr]

theorem sample_totalWeight : totalWeightOf sampleParams = 3 / 5 := by
  norm_num [totalWeightOf, sampleParams]

theorem sample_coverage : coverageOf sampleParams = 1 := by
  rw [coverageOf, sample_totalWeight, sample_matchedWeight]
  norm_num

theorem sample_coverage_pos :
    ¬ (buildFundEstimate sampleParams).coverage ≤ 0 := by
  rw [show (buildFundEstimate sampleParams).coverage = coverageOf sampleParams from rfl,
    sample_coverage]
  norm_num

theorem sample_gsz : (buildFundEstimate sampleParams).gsz = some (509 / 500) := by
  have hb : sampleParams.baseNav = some 1 := rfl
  simp only [buildFundEstimate, hb, sample_finalReturn]
  norm_num

theorem refreshStep_funds_self (mode : ValuationMode) (inputs : String → FundInputs)
    (quotes : String → Option StockQuote) (todayStr : String)
    (clock : WallClock) (startedAt : ℚ)
    (baseFunds : String → Option FundItemState) (st : BatchState) (code : String) :
    (refreshStep mode inputs quotes todayStr clock startedAt baseFunds st code).funds code
      = some (processFund mode (inputs code).bestSource (inputs code).official todayStr
          (inputs code).config (inputs code).err quotes (baseFunds code) clock startedAt
          st.cache code).item := by
  unfold refreshStep
  dsimp only
  rw [if_pos rfl]

theorem refreshStep_funds_other (mode : ValuationMode) (inputs : String → FundInputs)
    (quotes : String → Option StockQuote) (todayStr : String)
    (clock : WallClock) (startedAt : ℚ)
    (baseFunds : String → Option FundItemState) (st : BatchState) (code c : String)
    (h : c ≠ code) :
    (refreshStep mode inputs quotes todayStr clock startedAt baseFunds st code).funds c
      = st.funds c := by
  unfold refreshStep
  dsimp only
  rw [if_neg h]

theorem processFund_item_cache (mode : ValuationMode) (bestSource : Option String)
    (official : Option FundGzEstimate) (todayStr : String)
    (config : Option ParsedConfig) (err : Option String)
    (quotes : String → Option StockQuote) (base : Option FundItemState)
    (clock : WallClock) (startedAt : ℚ) (cache cache' : String → Option String)
    (code : String) :
    (processFund mode bestSource official todayStr config err quotes base clock
        startedAt cache code).item =
      (processFund mode bestSource official todayStr config err quotes base clock
        startedAt cache' code).item := by
  unfold processFund
  dsimp only
  repeat' split
  all_goals rfl

theorem processFund_item_holdings_success (mode : ValuationMode)
    (bestSource : Option String) (official : Option FundGzEstimate) (todayStr : String)
    (cfg : ParsedConfig) (quotes : String → Option StockQuote)
    (base : Option FundItemState) (clock : WallClock) (startedAt : ℚ)
    (cache : String → Option String) (code : String)
    (hoff : useOfficialOf mode bestSource official todayStr = false)
    (hcov : ¬ (buildFundEstimate (estimateParamsFor cfg quotes clock code)).coverage ≤ 0) :
    (processFund mode bestSource official todayStr (some cfg) none quotes base clock
        startedAt cache code).item =
      { status := .success
        errorMessage := none
        lastUpdatedAt := some clock.nowTs
        lastRefreshStartedAt := some startedAt
        latest := some (buildFundEstimate (estimateParamsFor cfg quotes clock code))
        previous := ((base.bind (·.latest)).orElse (fun _ => base.bind (·.previous))) } := by
  unfold processFund
  rw [hoff]
  dsimp only
  rw [if_neg hcov]
  repeat' split
  all_goals rfl

theorem processFund_push_holdings_success (mode : ValuationMode)
    (bestSource : Option String) (official : Option FundGzEstimate) (todayStr : String)
    (cfg : ParsedConfig) (quotes : String → Option StockQuote)
    (base : Option FundItemState) (clock : WallClock) (startedAt : ℚ)
    (cache : String → Option String) (code : String)
    (hoff : useOfficialOf mode bestSource official todayStr = false)
    (hcov : ¬ (buildFundEstimate (estimateParamsFor cfg quotes clock code)).coverage ≤ 0)
    (hcache : ¬ cache (code ++ ":" ++ sourceStr (some .holdings)) = some (timeStrOf clock)) :
    (processFund mode bestSource official todayStr (some cfg) none quotes base clock
        startedAt cache code).push =
      some ⟨code, timeStrOf clock,
        finalReturnOf (estimateParamsFor cfg quotes clock code) * 100,
        some .holdings⟩ := by
  unfold processFund
  rw [hoff]
  dsimp only
  rw [if_neg hcov]
  have hz : (buildFundEstimate (estimateParamsFor cfg quotes clock code)).gszzl
      = some (finalReturnOf (estimateParamsFor cfg quotes clock code) * 100) := rfl
  have hsrc : (buildFundEstimate (estimateParamsFor cfg quotes clock code)).valuationSource
      = some ValuationSource.holdings := rfl
  rw [hz, hsrc]
  dsimp only
  rw [if_neg hcache]

theorem processFund_item_coverage_fail (mode : ValuationMode)
    (bestSource : Option String) (official : Option FundGzEstimate) (todayStr : String)
    (cfg : ParsedConfig) (quotes : String → Option StockQuote)
    (base : Option FundItemState) (clock : WallClock) (startedAt : ℚ)
    (cache : String → Option String) (code : String)
    (hoff : useOfficialOf mode bestSource official todayStr = false)
    (hcov : (buildFundEstimate (estimateParamsFor cfg quotes clock code)).coverage ≤ 0) :
    (processFund mode bestSource official todayStr (some cfg) none quotes base clock
        startedAt cache code) =
      ⟨{ status := .error
         errorMessage := some "行情缺失"
         lastUpdatedAt := some clock.nowTs
         lastRefreshStartedAt := some startedAt
         latest := base.bind (·.latest)
         previous := base.bind (·.previous) }, none, none, false, some "行情缺失"⟩ := by
  unfold processFund
  rw [hoff]
  dsimp only
  rw [if_pos hcov]

theorem refreshLoop_funds_not_mem (mode : ValuationMode) (inputs : String → FundInputs)
    (quotes : String → Option StockQuote) (todayStr : String)
    (clock : WallClock) (startedAt : ℚ)
    (baseFunds : String → Option FundItemState) (codes : List String)
    (st : BatchState) (c : String) (hc : c ∉ codes) :
    (codes.foldl (refreshStep mode inputs quotes todayStr clock startedAt baseFunds) st).funds c
      = st.funds c := by
  induction codes generalizing st with
  | nil => rfl
  | cons d t ih =>
    simp only [List.mem_cons, not_or] at hc
    rw [List.foldl_cons, ih _ hc.2,
      refreshStep_funds_other mode inputs quotes todayStr clock startedAt baseFunds st d c hc.1]

theorem refreshLoop_funds_mem (mode : ValuationMode) (inputs : String → FundInputs)
    (quotes : String → Option StockQuote) (todayStr : String)
    (clock : WallClock) (startedAt : ℚ)
    (baseFunds : String → Option FundItemState) (codes : List String)
    (st : BatchState) (c : String) (hnd : codes.Nodup) (hc : c ∈ codes) :
    (codes.foldl (refreshStep mode inputs quotes todayStr clock startedAt baseFunds) st).funds c
      = some (itemOf mode inputs quotes todayStr clock startedAt baseFunds c) := by
  induction codes generalizing st with
  | nil => cases hc
  | cons d t ih =>
    rw [List.foldl_cons]
    rcases List.mem_cons.mp hc with rfl | hct
    · have hdn : c ∉ t := (List.nodup_cons.mp hnd).1
      rw [refreshLoop_funds_not_mem mode inputs quotes todayStr clock startedAt baseFunds
        t _ c hdn,
        refreshStep_funds_self mode inputs quotes todayStr clock startedAt baseFunds st c]
      rw [itemOf]
      exact congrArg some (processFund_item_cache mode (inputs c).bestSource
        (inputs c).official todayStr (inputs c).config (inputs c).err quotes
        (baseFunds c) clock startedAt st.cache (fun _ => none) c)
    · exact ih _ (List.nodup_cons.mp hnd).2 hct

theorem tagTest_iff (l : List Char) : tagTest l = true ↔ ValidTagged l := by
  constructor
  · intro h
    match l with
    | [] => simp [tagTest] at h
    | [a] => simp [tagTest] at h
    | a :: b :: rest =>
      simp only [tagTest, Bool.and_eq_true, Bool.or_eq_true, decide_eq_true_eq,
        List.all_eq_true] at h
      obtain ⟨⟨htag, hlen⟩, hdig⟩ := h
      refine ⟨[a, b], rest, ?_, rfl, hlen, hdig⟩
      rcases htag with (h1 | h1) | h1
      · exact Or.inl (by rw [h1.1, h1.2])
      · exact Or.inr (Or.inl (by rw [h1.1, h1.2]))
      · exact Or.inr (Or.inr (by rw [h1.1, h1.2]))
  · rintro ⟨t, ds, (rfl | rfl | rfl), rfl, hlen, hdig⟩ <;>
      simp [tagTest, hlen, List.all_eq_true] <;> exact hdig

theorem digits6Test_iff (l : List Char) : digits6Test l = true ↔ Bare6 l := by
  simp [digits6Test, Bare6, List.all_eq_true, Bool.and_eq_true, decide_eq_true_eq]

theorem isDig_ne_letters {c : Char} (h : isDig c = true) : c ≠ 's' ∧ c ≠ 'b' := by
  constructor <;> rintro rfl <;> exact absurd h (by decide)

theorem bare6_tagTest_false {l : List Char} (h : Bare6 l) : tagTest l = false := by
  obtain ⟨hlen, hdig⟩ := h
  match l with
  | [] => rfl
  | [a] => rfl
  | a :: b :: rest =>
    have ha := isDig_ne_letters (hdig a (by simp))
    simp [tagTest, ha.1, ha.2]

theorem usableB_true_iff (quotes : String → Option StockQuote) (h : HoldingItem) :
    usableB quotes h = true ↔ ∃ q, quotes h.symbol = some q ∧ 0 < q.prevClose := by
  unfold usableB
  cases hq : quotes h.symbol <;> simp [hq]

theorem usableB_false_iff (quotes : String → Option StockQuote) (h : HoldingItem) :
    usableB quotes h = false ↔ ¬ ∃ q, quotes h.symbol = some q ∧ 0 < q.prevClose := by
  rw [← usableB_true_iff quotes h]
  cases usableB quotes h <;> simp

theorem matchedAcc_weight (quotes : String → Option StockQuote) :
    ∀ (l : List HoldingItem) (acc : MatchAcc),
      (l.foldl (matchStep quotes) acc).weight
        = acc.weight + (l.map (fun h => if usableB quotes h then h.weight else 0)).sum := by
  intro l
  induction l with
  | nil => intro acc; simp
  | cons h t ih =>
    intro acc
    rw [List.foldl_cons, ih, List.map_cons, List.sum_cons]
    unfold matchStep usableB
    cases hq : quotes h.symbol with
    | none => simp
    | some q =>
      dsimp only
      by_cases hp : q.prevClose ≤ 0
      · rw [if_pos hp, if_neg (by simpa using hp)]
        simp
      · rw [if_neg hp]
        dsimp only
        rw [if_pos (show decide (0 < q.prevClose) = true by simpa using not_le.mp hp)]
        ring

theorem matchedWeightOf_eq_spec (p : EstimateParams) :
    matchedWeightOf p = matchedWeightSpec p := by
  rw [matchedWeightOf, matchedAcc, matchedAcc_weight, matchedWeightSpec]
  simp

theorem foldl_add_weight :
    ∀ (l : List HoldingItem) (a : ℚ),
      l.foldl (fun s h => s + h.weight) a = a + (l.map (·.weight)).sum := by
  intro l
  induction l with
  | nil => intro a; simp
  | cons h t ih =>
    intro a
    rw [List.foldl_cons, ih, List.map_cons, List.sum_cons]
    ring

theorem matched_sum_nonneg (quotes : String → Option StockQuote) :
    ∀ (l : List HoldingItem), (∀ h ∈ l, 0 < h.weight) →
      0 ≤ (l.map (fun h => if usableB quotes h then h.weight else 0)).sum := by
  intro l
  induction l with
  | nil => intro _; simp
  | cons h t ih =>
    intro hw
    rw [List.map_cons, List.sum_cons]
    have h1 : (0 : ℚ) ≤ (if usableB quotes h then h.weight else 0) := by
      split
      · exact le_of_lt (hw h (List.mem_cons_self h t))
      · exact le_refl 0
    have h2 := ih (fun x hx => hw x (List.mem_cons_of_mem h hx))
    linarith

theorem matched_sum_zero_iff (quotes : String → Option StockQuote) :
    ∀ (l : List HoldingItem), (∀ h ∈ l, 0 < h.weight) →
      ((l.map (fun h => if usableB quotes h then h.weight else 0)).sum = 0 ↔
        ∀ h ∈ l, usableB quotes h = false) := by
  intro l
  induction l with
  | nil => intro _; simp
  | cons h t ih =>
    intro hw
    rw [List.map_cons, List.sum_cons]
    have hhw := hw h (List.mem_cons_self h t)
    have htw : ∀ x ∈ t, 0 < x.weight := fun x hx => hw x (List.mem_cons_of_mem h hx)
    have h1 : (0 : ℚ) ≤ (if usableB quotes h then h.weight else 0) := by
      split
      · exact le_of_lt hhw
      · exact le_refl 0
    have h2 := matched_sum_nonneg quotes t htw
    constructor
    · intro hz
      have hterm : (if usableB quotes h then h.weight else 0) = 0 := by linarith
      have hrest : (t.map (fun h => if usableB quotes h then h.weight else 0)).sum = 0 := by
        linarith
      intro x hx
      rcases List.mem_cons.mp hx with rfl | hxt
      · by_contra hne
        have : usableB quotes x = true := by
          cases husable : usableB quotes x
          · exact absurd husable hne
          · rfl
        rw [if_pos this] at hterm
        exact absurd hterm (ne_of_gt hhw)
      · exact ((ih htw).mp hrest) x hxt
    · intro hall
      rw [if_neg (by simp [hall h (List.mem_cons_self h t)]),
        (ih htw).mpr (fun x hx => hall x (List.mem_cons_of_mem h hx))]
      simp

theorem sum_weights_nonneg :
    ∀ (l : List HoldingItem), (∀ h ∈ l, 0 < h.weight) →
      0 ≤ (l.map (·.weight)).sum := by
  intro l
  induction l with
  | nil => intro _; simp
  | cons h t ih =>
    intro hw
    rw [List.map_cons, List.sum_cons]
    have h1 := hw h (List.mem_cons_self h t)
    have h2 := ih (fun x hx => hw x (List.mem_cons_of_mem h hx))
    linarith

theorem sum_weights_pos :
    ∀ (l : List HoldingItem), (∀ h ∈ l, 0 < h.weight) → l ≠ [] →
      0 < (l.map (·.weight)).sum := by
  intro l
  induction l with
  | nil => intro _ hne; exact absurd rfl hne
  | cons h t _ =>
    intro hw _
    rw [List.map_cons, List.sum_cons]
    have h1 := hw h (List.mem_cons_self h t)
    have h2 := sum_weights_nonneg t (fun x hx => hw x (List.mem_cons_of_mem h hx))
    linarith

/- ### Lemmas for the holdings-text round trip -/

theorem splitCh_ne_nil (sep : Char) : ∀ l, splitCh sep l ≠ [] := by
  intro l
  induction l with
  | nil => simp [splitCh]
  | cons c rest ih =>
    rw [splitCh]
    split
    · simp
    · cases h : splitCh sep rest with
      | nil => exact absurd h ih
      | cons p ps => simp

theorem mem_splitCh_not_sep (sep : Char) :
    ∀ l part, part ∈ splitCh sep l → sep ∉ part := by
  intro l
  induction l with
  | nil =>
    intro part hp
    rw [splitCh] at hp
    rcases List.mem_singleton.mp hp with rfl
    simp
  | cons c rest ih =>
    intro part hp
    rw [splitCh] at hp
    by_cases hc : c = sep
    · rw [if_pos hc] at hp
      rcases List.mem_cons.mp hp with rfl | hp2
      · simp
      · exact ih part hp2
    · rw [if_neg hc] at hp
      cases hsp : splitCh sep rest with
      | nil => exact absurd hsp (splitCh_ne_nil sep rest)
      | cons p ps =>
        rw [hsp] at hp
        rcases List.mem_cons.mp hp with rfl | hp2
        · intro hmem
          rcases List.mem_cons.mp hmem with rfl | hmem2
          · exact hc rfl
          · exact ih p (hsp ▸ List.mem_cons_self p ps) hmem2
        · exact ih part (hsp ▸ List.mem_cons_of_mem p hp2)

theorem mem_splitCh_subset (sep : Char) :
    ∀ l part, part ∈ splitCh sep l → ∀ c ∈ part, c ∈ l := by
  intro l
  induction l with
  | nil =>
    intro part hp
    rw [splitCh] at hp
    rcases List.mem_singleton.mp hp with rfl
    simp
  | cons a rest ih =>
    intro part hp
    rw [splitCh] at hp
    by_cases ha : a = sep
    · rw [if_pos ha] at hp
      rcases List.mem_cons.mp hp with rfl | hp2
      · simp
      · exact fun c hc => List.mem_cons_of_mem a (ih part hp2 c hc)
    · rw [if_neg ha] at hp
      cases hsp : splitCh sep rest with
      | nil => exact absurd hsp (splitCh_ne_nil sep rest)
      | cons p ps =>
        rw [hsp] at hp
        rcases List.mem_cons.mp hp with rfl | hp2
        · intro c hc
          rcases List.mem_cons.mp hc with rfl | hc2
          · exact List.mem_cons_self c rest
          · exact List.mem_cons_of_mem a (ih p (hsp ▸ List.mem_cons_self p ps) c hc2)
        · exact fun c hc =>
            List.mem_cons_of_mem a (ih part (hsp ▸ List.mem_cons_of_mem p hp2) c hc)

theorem splitCh_no_sep (sep : Char) :
    ∀ l, sep ∉ l → splitCh sep l = [l] := by
  intro l
  induction l with
  | nil => intro _; rfl
  | cons c rest ih =>
    intro h
    rw [splitCh, if_neg (fun hc => h (by rw [← hc]; exact List.mem_cons_self c rest)),
      ih (fun hm => h (List.mem_cons_of_mem c hm))]

theorem splitCh_append_sep (sep : Char) :
    ∀ p r, sep ∉ p → splitCh sep (p ++ sep :: r) = p :: splitCh sep r := by
  intro p
  induction p with
  | nil => intro r _; rw [List.nil_append, splitCh, if_pos rfl]
  | cons c cs ih =>
    intro r h
    rw [List.cons_append, splitCh,
      if_neg (fun hc => h (by rw [← hc]; exact List.mem_cons_self c cs)),
      ih r (fun hm => h (List.mem_cons_of_mem c hm))]

theorem splitCh_intercalate (sep : Char) :
    ∀ parts, (∀ part ∈ parts, sep ∉ part) → parts ≠ [] →
      splitCh sep (List.intercalate [sep] parts) = parts := by
  intro parts
  induction parts with
  | nil => intro _ h; exact absurd rfl h
  | cons p ps ih =>
    intro hs _
    cases ps with
    | nil =>
      have h1 : List.intercalate [sep] [p] = p := by simp [List.intercalate]
      rw [h1]
      exact splitCh_no_sep sep p (hs p (List.mem_cons_self p []))
    | cons q qs =>
      have hinter : List.intercalate [sep] (p :: q :: qs)
          = p ++ sep :: List.intercalate [sep] (q :: qs) := by
        simp [List.intercalate, List.intersperse]
      rw [hinter,
        splitCh_append_sep sep p _ (hs p (List.mem_cons_self p (q :: qs))),
        ih (fun part hp => hs part (List.mem_cons_of_mem p hp)) (by simp)]

theorem dropWhile_head_false (p : Char → Bool) :
    ∀ (l : List Char) (c : Char), (l.dropWhile p).head? = some c → p c = false := by
  intro l
  induction l with
  | nil => intro c hc; simp [List.dropWhile] at hc
  | cons a rest ih =>
    intro c hc
    by_cases hp : p a = true
    · rw [List.dropWhile_cons, if_pos hp] at hc
      exact ih c hc
    · rw [List.dropWhile_cons, if_neg hp, List.head?_cons] at hc
      have hac : a = c := Option.some.inj hc
      subst hac
      exact Bool.eq_false_iff.mpr hp

theorem dropWhile_eq_self (p : Char → Bool) (l : List Char)
    (h : ∀ c, l.head? = some c → p c = false) : l.dropWhile p = l := by
  cases l with
  | nil => rfl
  | cons a rest =>
    rw [List.dropWhile_cons, if_neg]
    simp [h a rfl]

theorem jsTrim_eq_self (l : List Char)
    (h1 : ∀ c, l.head? = some c → jsSpace c = false)
    (h2 : ∀ c, l.getLast? = some c → jsSpace c = false) : jsTrim l = l := by
  rw [jsTrim, dropWhile_eq_self _ l h1,
    dropWhile_eq_self _ l.reverse (fun c hc => h2 c (by rwa [List.head?_reverse] at hc)),
    List.reverse_reverse]

theorem mem_jsTrim (l : List Char) (c : Char) (h : c ∈ jsTrim l) : c ∈ l := by
  rw [jsTrim] at h
  have h1 := List.mem_reverse.mp h
  have h2 := (List.dropWhile_suffix jsSpace).sublist.subset h1
  have h3 := List.mem_reverse.mp h2
  exact (List.dropWhile_suffix jsSpace).sublist.subset h3

theorem getLast?_suffix_eq (Y Z : List Char) (h : Y <:+ Z) (hne : Y ≠ []) :
    Y.getLast? = Z.getLast? := by
  obtain ⟨w, rfl⟩ := h
  exact (List.getLast?_append_of_ne_nil w hne).symm

theorem head?_jsTrim (l : List Char) (c : Char)
    (h : (jsTrim l).head? = some c) : jsSpace c = false := by
  rw [jsTrim, List.head?_reverse] at h
  have hne : ((l.dropWhile jsSpace).reverse.dropWhile jsSpace) ≠ [] := by
    intro he
    rw [he] at h
    simp at h
  rw [getLast?_suffix_eq ((l.dropWhile jsSpace).reverse.dropWhile jsSpace)
      (l.dropWhile jsSpace).reverse (List.dropWhile_suffix jsSpace) hne,
    List.getLast?_reverse] at h
  exact dropWhile_head_false jsSpace l c h

theorem getLast?_jsTrim (l : List Char) (c : Char)
    (h : (jsTrim l).getLast? = some c) : jsSpace c = false := by
  rw [jsTrim, List.getLast?_reverse] at h
  exact dropWhile_head_false jsSpace _ c h

theorem jsTrim_idem (l : List Char) : jsTrim (jsTrim l) = jsTrim l :=
  jsTrim_eq_self _ (head?_jsTrim l) (getLast?_jsTrim l)

theorem jsTrim_all_eq_self (l : List Char)
    (h : ∀ c ∈ l, jsSpace c = false) : jsTrim l = l :=
  jsTrim_eq_self l
    (fun c hc => h c (by cases l with
      | nil => simp at hc
      | cons a r => exact (Option.some.inj hc) ▸ List.mem_cons_self a r))
    (fun c hc => h c (List.mem_of_mem_getLast? (by simpa using hc)))

theorem collapseSeps_id : ∀ (l : List Char), (∀ c ∈ l, isSep c = false) →
    collapseSeps l = l := by
  intro l
  induction l with
  | nil => intro _; rw [collapseSeps]
  | cons c rest ih =>
    intro h
    rw [collapseSeps, if_neg (by simp [h c (List.mem_cons_self c rest)]),
      ih (fun x hx => h x (List.mem_cons_of_mem c hx))]

theorem mem_collapseSeps : ∀ (l : List Char) (c : Char), c ∈ collapseSeps l →
    isSep c = false ∧ (c = ' ' ∨ c ∈ l) := by
  intro l
  induction l using collapseSeps.induct with
  | case1 =>
    intro c hc
    simp [collapseSeps] at hc
  | case2 a rest ha ih =>
    intro c hc
    rw [collapseSeps, if_pos ha] at hc
    rcases List.mem_cons.mp hc with rfl | hc2
    · exact ⟨by decide, Or.inl rfl⟩
    · rcases ih c hc2 with ⟨hs, h2⟩
      refine ⟨hs, ?_⟩
      rcases h2 with rfl | hmem
      · exact Or.inl rfl
      · exact Or.inr (List.mem_cons_of_mem a
          ((List.dropWhile_suffix isSep).sublist.subset hmem))
  | case3 a rest ha ih =>
    intro c hc
    rw [collapseSeps, if_neg ha] at hc
    rcases List.mem_cons.mp hc with rfl | hc2
    · exact ⟨Bool.eq_false_iff.mpr ha, Or.inr (List.mem_cons_self _ _)⟩
    · rcases ih c hc2 with ⟨hs, h2⟩
      refine ⟨hs, ?_⟩
      rcases h2 with rfl | hmem
      · exact Or.inl rfl
      · exact Or.inr (List.mem_cons_of_mem a hmem)

theorem wordsByAux_tokens (p : Char → Bool) :
    ∀ (l acc : List Char), (∀ c ∈ acc, p c = false) →
      ∀ tok ∈ wordsByAux p l acc,
        tok ≠ [] ∧ ∀ c ∈ tok, p c = false ∧ (c ∈ l ∨ c ∈ acc) := by
  intro l
  induction l with
  | nil =>
    intro acc hacc tok htok
    rw [wordsByAux] at htok
    split at htok
    · simp at htok
    · rcases List.mem_singleton.mp htok with rfl
      rename_i hne
      refine ⟨by simpa using hne, fun c hc => ?_⟩
      have := List.mem_reverse.mp hc
      exact ⟨hacc c this, Or.inr this⟩
  | cons a rest ih =>
    intro acc hacc tok htok
    rw [wordsByAux] at htok
    by_cases hp : p a = true
    · rw [if_pos hp] at htok
      split at htok
      · rcases ih [] (by simp) tok htok with ⟨hne, hmem⟩
        refine ⟨hne, fun c hc => ?_⟩
        rcases hmem c hc with ⟨hpc, hor⟩
        rcases hor with hl | hnil
        · exact ⟨hpc, Or.inl (List.mem_cons_of_mem a hl)⟩
        · simp at hnil
      · rcases List.mem_cons.mp htok with rfl | htok2
        · rename_i hne
          refine ⟨by simpa using hne, fun c hc => ?_⟩
          have := List.mem_reverse.mp hc
          exact ⟨hacc c this, Or.inr this⟩
        · rcases ih [] (by simp) tok htok2 with ⟨hne, hmem⟩
          refine ⟨hne, fun c hc => ?_⟩
          rcases hmem c hc with ⟨hpc, hor⟩
          rcases hor with hl | hnil
          · exact ⟨hpc, Or.inl (List.mem_cons_of_mem a hl)⟩
          · simp at hnil
    · rw [if_neg hp] at htok
      rcases ih (a :: acc) (fun c hc => by
          rcases List.mem_cons.mp hc with rfl | hc2
          · exact Bool.eq_false_iff.mpr hp
          · exact hacc c hc2) tok htok with ⟨hne, hmem⟩
      refine ⟨hne, fun c hc => ?_⟩
      rcases hmem c hc with ⟨hpc, hor⟩
      refine ⟨hpc, ?_⟩
      rcases hor with hl | hin
      · exact Or.inl (List.mem_cons_of_mem a hl)
      · rcases List.mem_cons.mp hin with rfl | hacc2
        · exact Or.inl (List.mem_cons_self c rest)
        · exact Or.inr hacc2

theorem removeFirstPercent_append : ∀ (num : List Char), '%' ∉ num →
    removeFirstPercent (num ++ ['%']) = num := by
  intro num
  induction num with
  | nil => intro _; rfl
  | cons c cs ih =>
    intro h
    rw [List.cons_append, removeFirstPercent,
      if_neg (fun hc => h (by rw [hc]; exact List.mem_cons_self '%' cs)),
      ih (fun hm => h (List.mem_cons_of_mem c hm))]

theorem contains_of_mem : ∀ (l : List Char) (c : Char), c ∈ l →
    l.contains c = true := by
  intro l c h
  exact List.elem_eq_true_of_mem h

theorem toWeight_pos (raw : List Char) (w : ℚ) (h : toWeight raw = some w) :
    0 < w := by
  unfold toWeight at h
  dsimp only at h
  cases hn : jsNumber (jsTrim (removeFirstPercent raw)) with
  | none => rw [hn] at h; cases h
  | some v =>
    rw [hn] at h
    dsimp only at h
    by_cases h0 : v ≤ 0
    · rw [if_pos h0] at h; cases h
    · rw [if_neg h0] at h
      push_neg at h0
      by_cases h1 : 1 < v
      · rw [if_pos h1] at h
        rw [← Option.some.inj h]
        positivity
      · rw [if_neg h1] at h
        rw [← Option.some.inj h]
        exact h0

theorem getD_zero_mem : ∀ (parts : List (List Char)), parts ≠ [] →
    parts.getD 0 [] ∈ parts := by
  intro parts h
  cases parts with
  | nil => exact absurd rfl h
  | cons p ps => exact List.mem_cons_self p ps

theorem not_mem_of_contains_false (l : List Char) (c : Char)
    (h : l.contains c = false) : c ∉ l := by
  intro hm
  rw [contains_of_mem l c hm] at h
  cases h

/-- The code token of any line whose characters avoid `'\n'` is a good
symbol whenever it is nonempty. -/
theorem lineTokens_fst_good (line : List Char) (hnl : ∀ c ∈ line, c ≠ '\n')
    (hne : (lineTokens line).1 ≠ []) : GoodSym (lineTokens line).1 := by
  have hnmem : ∀ c ∈ jsTrim (collapseSeps line), isSep c = false ∧ c ≠ '\n' := by
    intro c hc
    have h1 := mem_jsTrim _ c hc
    rcases mem_collapseSeps _ c h1 with ⟨hsep, hor⟩
    refine ⟨hsep, ?_⟩
    rcases hor with rfl | hmem
    · decide
    · exact hnl c hmem
  unfold lineTokens at hne ⊢
  dsimp only at hne ⊢
  by_cases hcol : (jsTrim (collapseSeps line)).contains ':' = true
  · rw [if_pos hcol] at hne ⊢
    dsimp only at hne ⊢
    have hp0 : (splitCh ':' (jsTrim (collapseSeps line))).getD 0 []
        ∈ splitCh ':' (jsTrim (collapseSeps line)) :=
      getD_zero_mem _ (splitCh_ne_nil ':' _)
    refine ⟨hne, jsTrim_idem _, ?_⟩
    intro c hc
    have hcp := mem_jsTrim _ c hc
    have hcn := mem_splitCh_subset ':' _ _ hp0 c hcp
    refine ⟨(hnmem c hcn).1, ?_, (hnmem c hcn).2⟩
    intro he
    exact mem_splitCh_not_sep ':' _ _ hp0 (he ▸ hcp)
  · rw [if_neg hcol] at hne ⊢
    dsimp only at hne ⊢
    have hnocol : ':' ∉ jsTrim (collapseSeps line) :=
      not_mem_of_contains_false _ _ (Bool.eq_false_iff.mpr hcol)
    cases hwb : wordsBy jsSpace (jsTrim (collapseSeps line)) with
    | nil =>
      rw [hwb] at hne
      exact absurd rfl hne
    | cons tok toks =>
      rw [hwb] at hne
      have htok := wordsByAux_tokens jsSpace (jsTrim (collapseSeps line)) [] (by simp)
        tok (by rw [← wordsBy, hwb]; exact List.mem_cons_self tok toks)
      refine ⟨hne, jsTrim_idem _, ?_⟩
      intro c hc
      have hcp := mem_jsTrim _ c hc
      rcases (htok.2 c hcp) with ⟨_, hor⟩
      rcases hor with hmem | hnil
      · exact ⟨(hnmem c hmem).1, fun he => hnocol (he ▸ hmem), (hnmem c hmem).2⟩
      · simp at hnil

/-- Every item produced by `parseHoldingsText` has a good symbol, a
positive weight and default `name`/`industry`. -/
theorem parseHoldingsText_inv (text : String) :
    ∀ it ∈ parseHoldingsText text,
      GoodSym it.symbol.data ∧ 0 < it.weight ∧ it.name = none ∧ it.industry = none := by
  intro it hit
  rw [parseHoldingsText] at hit
  rcases List.mem_filterMap.mp hit with ⟨line, hline, hli⟩
  have hlf := List.mem_filter.mp hline
  rcases List.mem_map.mp hlf.1 with ⟨raw, hraw, hraweq⟩
  have hnl : ∀ c ∈ line, c ≠ '\n' := by
    intro c hc he
    rw [← hraweq] at hc
    exact mem_splitCh_not_sep '\n' text.data raw hraw (he ▸ mem_jsTrim raw c hc)
  rw [lineToItem] at hli
  by_cases hg : (lineTokens line).1 = [] ∨ (lineTokens line).2 = []
  · rw [if_pos hg] at hli
    cases hli
  · rw [if_neg hg] at hli
    push_neg at hg
    cases hw : toWeight (lineTokens line).2 with
    | none => rw [hw] at hli; cases hli
    | some w =>
      rw [hw] at hli
      dsimp only at hli
      rw [← Option.some.inj hli]
      refine ⟨?_, toWeight_pos _ w hw, rfl, rfl⟩
      exact lineTokens_fst_good line hnl hg.1

theorem lineOf_no_sep (render : ℚ → List Char) (it : HoldingItem)
    (hs : GoodSym it.symbol.data) (hr : GoodRender render (100 * it.weight)) :
    ∀ c ∈ lineOf render it, isSep c = false := by
  intro c hc
  rw [lineOf] at hc
  rcases List.mem_append.mp hc with hcs | hcr
  · exact (hs.2.2 c hcs).1
  · rcases List.mem_cons.mp hcr with rfl | hcr2
    · decide
    rcases List.mem_cons.mp hcr2 with rfl | hcr3
    · decide
    rcases List.mem_append.mp hcr3 with hcn | hcp
    · exact (hr.2.1 c hcn).2.1
    · rcases List.mem_singleton.mp hcp with rfl
      decide

theorem lineOf_no_newline (render : ℚ → List Char) (it : HoldingItem)
    (hs : GoodSym it.symbol.data) (hr : GoodRender render (100 * it.weight)) :
    '\n' ∉ lineOf render it := by
  intro hc
  rw [lineOf] at hc
  rcases List.mem_append.mp hc with hcs | hcr
  · exact (hs.2.2 '\n' hcs).2.2 rfl
  · rcases List.mem_cons.mp hcr with h1 | hcr2
    · cases h1
    rcases List.mem_cons.mp hcr2 with h2 | hcr3
    · cases h2
    rcases List.mem_append.mp hcr3 with hcn | hcp
    · have := (hr.2.1 '\n' hcn).1
      simp [jsSpace] at this
    · rcases List.mem_singleton.mp hcp with h3
      cases h3

theorem head?_symbol_not_space (it : HoldingItem) (hs : GoodSym it.symbol.data) :
    ∀ c, it.symbol.data.head? = some c → jsSpace c = false := by
  intro c hc
  rw [← hs.2.1] at hc
  exact head?_jsTrim _ c hc

theorem jsTrim_lineOf (render : ℚ → List Char) (it : HoldingItem)
    (hs : GoodSym it.symbol.data) (_hr : GoodRender render (100 * it.weight)) :
    jsTrim (lineOf render it) = lineOf render it := by
  apply jsTrim_eq_self
  · intro c hc
    rw [lineOf, List.head?_append_of_ne_nil it.symbol.data hs.1] at hc
    exact head?_symbol_not_space it hs c hc
  · intro c hc
    rw [lineOf,
      @List.getLast?_append_of_ne_nil _ it.symbol.data
        (':' :: ' ' :: (render (100 * it.weight) ++ ['%'])) (by simp),
      show (':' :: ' ' :: (render (100 * it.weight) ++ ['%']))
          = [':', ' '] ++ (render (100 * it.weight) ++ ['%']) from rfl,
      List.getLast?_append_of_ne_nil [':', ' '] (by simp),
      @List.getLast?_append_of_ne_nil _ (render (100 * it.weight))
        ['%'] (by simp)] at hc
    rcases Option.some.inj hc with rfl
    decide

theorem jsTrim_space_cons (X : List Char) (_hne : X ≠ [])
    (hhead : ∀ c, X.head? = some c → jsSpace c = false)
    (hlast : ∀ c, X.getLast? = some c → jsSpace c = false) :
    jsTrim (' ' :: X) = X := by
  have hX : jsTrim X = X := jsTrim_eq_self X hhead hlast
  rw [jsTrim, dropWhile_eq_self jsSpace X hhead] at hX
  rw [jsTrim, List.dropWhile_cons, if_pos (by decide),
    dropWhile_eq_self jsSpace X hhead]
  exact hX

theorem lineTokens_lineOf (render : ℚ → List Char) (it : HoldingItem)
    (hs : GoodSym it.symbol.data) (hr : GoodRender render (100 * it.weight)) :
    lineTokens (lineOf render it)
      = (it.symbol.data, render (100 * it.weight) ++ ['%']) := by
  have hcoll : collapseSeps (lineOf render it) = lineOf render it :=
    collapseSeps_id _ (lineOf_no_sep render it hs hr)
  have htrim : jsTrim (lineOf render it) = lineOf render it :=
    jsTrim_lineOf render it hs hr
  have hX : render (100 * it.weight) ++ ['%'] ≠ [] := by simp
  have hXhead : ∀ c, (render (100 * it.weight) ++ ['%']).head? = some c →
      jsSpace c = false := by
    intro c hc
    rw [List.head?_append_of_ne_nil _ hr.1] at hc
    exact (hr.2.1 c (List.mem_of_mem_head? (by simpa using hc))).1
  have hXlast : ∀ c, (render (100 * it.weight) ++ ['%']).getLast? = some c →
      jsSpace c = false := by
    intro c hc
    rw [@List.getLast?_append_of_ne_nil _ (render (100 * it.weight)) ['%'] (by simp)] at hc
    rcases Option.some.inj hc with rfl
    decide
  rw [lineTokens]
  rw [hcoll, htrim]
  rw [if_pos (contains_of_mem _ ':' (by
    rw [lineOf]
    exact List.mem_append.mpr (Or.inr (List.mem_cons_self ':' _))))]
  dsimp only
  have hsplit : splitCh ':' (lineOf render it)
      = [it.symbol.data, ' ' :: (render (100 * it.weight) ++ ['%'])] := by
    rw [lineOf, splitCh_append_sep ':' it.symbol.data _
      (fun hm => (hs.2.2 ':' hm).2.1 rfl)]
    rw [splitCh_no_sep ':' _ (by
      intro hm
      rcases List.mem_cons.mp hm with h1 | h2
      · cases h1
      rcases List.mem_append.mp h2 with h3 | h4
      · exact (hr.2.1 ':' h3).2.2.1 rfl
      · rcases List.mem_singleton.mp h4 with h5
        cases h5)]
  rw [hsplit]
  dsimp only [List.getD, List.get?, Option.getD]
  rw [hs.2.1, jsTrim_space_cons _ hX hXhead hXlast]

theorem toWeight_render (render : ℚ → List Char) (q : ℚ)
    (hr : GoodRender render q) (hq : 0 < q) :
    toWeight (render q ++ ['%'])
      = if 1 < q then some (q / 100) else some q := by
  unfold toWeight
  rw [show jsTrim (removeFirstPercent (render q ++ ['%'])) = render q from by
    rw [removeFirstPercent_append (render q) (fun hm => (hr.2.1 '%' hm).2.2.2 rfl)]
    exact jsTrim_all_eq_self (render q) (fun c hc => (hr.2.1 c hc).1)]
  show (match jsNumber (render q) with
    | none => none
    | some v => if v ≤ 0 then none else if 1 < v then some (v / 100) else some v)
      = if 1 < q then some (q / 100) else some q
  rw [hr.2.2]
  show (if q ≤ 0 then none else if 1 < q then some (q / 100) else some q)
    = if 1 < q then some (q / 100) else some q
  rw [if_neg (not_le.mpr hq)]

theorem lineToItem_lineOf (render : ℚ → List Char) (it : HoldingItem)
    (hs : GoodSym it.symbol.data) (hr : GoodRender render (100 * it.weight))
    (hw : 0 < it.weight) :
    lineToItem (lineOf render it)
      = some { symbol := it.symbol
               weight := if 1 < 100 * it.weight then it.weight
                         else 100 * it.weight } := by
  rw [lineToItem]
  rw [lineTokens_lineOf render it hs hr]
  show (if it.symbol.data = [] ∨ render (100 * it.weight) ++ ['%'] = [] then none
    else match toWeight (render (100 * it.weight) ++ ['%']) with
      | none => none
      | some w => some ({ symbol := String.mk it.symbol.data, weight := w } : HoldingItem))
    = some ({ symbol := it.symbol
              weight := if 1 < 100 * it.weight then it.weight else 100 * it.weight } : HoldingItem)
  rw [if_neg (by
    push_neg
    exact ⟨hs.1, by simp⟩)]
  rw [toWeight_render render (100 * it.weight) hr (by positivity)]
  have hdiv : 100 * it.weight / 100 = it.weight := by field_simp
  by_cases h1 : 1 < 100 * it.weight
  · rw [if_pos h1, if_pos h1, hdiv]
  · rw [if_neg h1, if_neg h1]

theorem filterMap_lineOf (render : ℚ → List Char) :
    ∀ (l : List HoldingItem),
      (∀ it ∈ l, GoodSym it.symbol.data ∧ 0 < it.weight ∧
        GoodRender render (100 * it.weight)) →
      l.filterMap (fun it => lineToItem (lineOf render it))
        = l.map (fun it =>
            ({ symbol := it.symbol
               weight := if (1 : ℚ) < 100 * it.weight then it.weight
                         else 100 * it.weight } : HoldingItem)) := by
  intro l
  induction l with
  | nil => intro _; rfl
  | cons a t ih =>
    intro hyp
    have ha := hyp a (List.mem_cons_self a t)
    simp only [List.filterMap_cons, lineToItem_lineOf render a ha.1 ha.2.2 ha.2.1,
      List.map_cons]
    rw [ih (fun it hit => hyp it (List.mem_cons_of_mem a hit))]

theorem parse_serialize (render : ℚ → List Char) (items : List HoldingItem)
    (hyp : ∀ it ∈ items, GoodSym it.symbol.data ∧ 0 < it.weight ∧
      GoodRender render (100 * it.weight)) :
    parseHoldingsText (String.mk (serializeHoldings render items))
      = items.map (fun it =>
          ({ symbol := it.symbol
             weight := if (1 : ℚ) < 100 * it.weight then it.weight
                       else 100 * it.weight } : HoldingItem)) := by
  by_cases hnil : items = []
  · subst hnil
    rfl
  · have hlines_nl : ∀ part ∈ items.map (lineOf render), '\n' ∉ part := by
      intro part hp
      rcases List.mem_map.mp hp with ⟨it, hit, rfl⟩
      exact lineOf_no_newline render it (hyp it hit).1 (hyp it hit).2.2
    rw [parseHoldingsText,
      show (String.mk (serializeHoldings render items)).data
        = serializeHoldings render items from rfl,
      serializeHoldings,
      splitCh_intercalate '\n' (items.map (lineOf render)) hlines_nl
        (by simpa using hnil)]
    have hmapmap : (items.map (lineOf render)).map jsTrim = items.map (lineOf render) := by
      rw [List.map_map]
      apply List.map_congr_left
      intro it hit
      exact jsTrim_lineOf render it (hyp it hit).1 (hyp it hit).2.2
    rw [hmapmap,
      List.filter_eq_self.mpr (fun part hp => by
        rcases List.mem_map.mp hp with ⟨it, hit, rfl⟩
        simp [lineOf]),
      List.filterMap_map]
    exact filterMap_lineOf render items hyp

theorem jsNumber_0005 : jsNumber "0.005".data = some (1 / 200) := by
  have h0 : jsNumber "0.005".data
      = some ((digitsVal ['0'] : ℚ) + (digitsVal ['0', '0', '5'] : ℚ) / 10 ^ (3 : ℕ)) := rfl
  have hd1 : digitsVal ['0'] = 0 := rfl
  have hd2 : digitsVal ['0', '0', '5'] = 5 := rfl
  rw [h0, hd1, hd2]
  norm_num

theorem jsNumber_05 : jsNumber "0.5".data = some (1 / 2) := by
  have h0 : jsNumber "0.5".data
      = some ((digitsVal ['0'] : ℚ) + (digitsVal ['5'] : ℚ) / 10 ^ (1 : ℕ)) := rfl
  have hd1 : digitsVal ['0'] = 0 := rfl
  have hd2 : digitsVal ['5'] = 5 := rfl
  rw [h0, hd1, hd2]
  norm_num

theorem jsNumber_55 : jsNumber "5.5".data = some (11 / 2) := by
  have h0 : jsNumber "5.5".data
      = some ((digitsVal ['5'] : ℚ) + (digitsVal ['5'] : ℚ) / 10 ^ (1 : ℕ)) := rfl
  have hd : digitsVal ['5'] = 5 := rfl
  rw [h0, hd]
  norm_num

theorem toWeight_eval (raw core : List Char) (v : ℚ)
    (hclean : jsTrim (removeFirstPercent raw) = core)
    (hnum : jsNumber core = some v) (hv : 0 < v) :
    toWeight raw = if 1 < v then some (v / 100) else some v := by
  unfold toWeight
  rw [hclean]
  show (match jsNumber core with
    | none => none
    | some v => if v ≤ 0 then none else if 1 < v then some (v / 100) else some v)
    = if 1 < v then some (v / 100) else some v
  rw [hnum]
  show (if v ≤ 0 then none else if 1 < v then some (v / 100) else some v)
    = if 1 < v then some (v / 100) else some v
  rw [if_neg (not_le.mpr hv)]

theorem lineToItem_eval (line code wraw : List Char) (w : ℚ)
    (htok : lineTokens line = (code, wraw)) (hcode : code ≠ []) (hwraw : wraw ≠ [])
    (htw : toWeight wraw = some w) :
    lineToItem line = some { symbol := String.mk code, weight := w } := by
  rw [lineToItem, htok]
  show (if (code = [] ∨ wraw = []) then none
    else match toWeight wraw with
      | none => none
      | some w => some ({ symbol := String.mk code, weight := w } : HoldingItem))
    = some { symbol := String.mk code, weight := w }
  rw [if_neg (by simp [hcode, hwraw]), htw]

theorem lineTokens_no_sep (line : List Char)
    (hns : ∀ c ∈ line, isSep c = false) :
    lineTokens line =
      (if (jsTrim line).contains ':' then
        (jsTrim ((splitCh ':' (jsTrim line)).getD 0 []),
          jsTrim ((splitCh ':' (jsTrim line)).getD 1 []))
      else
        (jsTrim ((wordsBy jsSpace (jsTrim line)).getD 0 []),
          jsTrim ((wordsBy jsSpace (jsTrim line)).getD 1 []))) := by
  rw [lineTokens, collapseSeps_id line hns]

theorem parse_a0005 :
    parseHoldingsText "a: 0.005" = [{ symbol := "a", weight := 1 / 200 }] := by
  have htw : toWeight "0.005".data = some (1 / 200) := by
    rw [toWeight_eval "0.005".data "0.005".data (1 / 200) rfl jsNumber_0005 (by norm_num)]
    norm_num
  have hli : lineToItem "a: 0.005".data
      = some { symbol := String.mk "a".data, weight := 1 / 200 } :=
    lineToItem_eval "a: 0.005".data "a".data "0.005".data (1 / 200)
      (by rw [lineTokens_no_sep _ (by decide)]; decide) (by decide) (by decide) htw
  rw [parseHoldingsText,
    show (((splitCh '\n' ("a: 0.005" : String).data).map jsTrim).filter (· ≠ []))
      = ["a: 0.005".data] from rfl]
  rw [List.filterMap_cons_some hli]
  rfl

theorem parse_a05pct :
    parseHoldingsText "a: 0.5%" = [{ symbol := "a", weight := 1 / 2 }] := by
  have htw : toWeight "0.5%".data = some (1 / 2) := by
    rw [toWeight_eval "0.5%".data "0.5".data (1 / 2) rfl jsNumber_05 (by norm_num)]
    norm_num
  have hli : lineToItem "a: 0.5%".data
      = some { symbol := String.mk "a".data, weight := 1 / 2 } :=
    lineToItem_eval "a: 0.5%".data "a".data "0.5%".data (1 / 2)
      (by rw [lineTokens_no_sep _ (by decide)]; decide) (by decide) (by decide) htw
  rw [parseHoldingsText,
    show (((splitCh '\n' ("a: 0.5%" : String).data).map jsTrim).filter (· ≠ []))
      = ["a: 0.5%".data] from rfl]
  rw [List.filterMap_cons_some hli]
  rfl

theorem parse_sh55 :
    parseHoldingsText "sh600000: 5.5"
      = [{ symbol := "sh600000", weight := 11 / 200 }] := by
  have htw : toWeight "5.5".data = some (11 / 200) := by
    rw [toWeight_eval "5.5".data "5.5".data (11 / 2) rfl jsNumber_55 (by norm_num),
      if_pos (by norm_num : (1 : ℚ) < 11 / 2)]
    norm_num
  have hli : lineToItem "sh600000: 5.5".data
      = some { symbol := String.mk "sh600000".data, weight := 11 / 200 } :=
    lineToItem_eval "sh600000: 5.5".data "sh600000".data "5.5".data (11 / 200)
      (by rw [lineTokens_no_sep _ (by decide)]; decide) (by decide) (by decide) htw
  rw [parseHoldingsText,
    show (((splitCh '\n' ("sh600000: 5.5" : String).data).map jsTrim).filter (· ≠ []))
      = ["sh600000: 5.5".data] from rfl]
  rw [List.filterMap_cons_some hli]
  rfl

/- ### Claim theorems -/

/-- C3: the freshness factor equals 1 for age ≤ 45 days and
`max 0.65 (1 - ((age-45)/365) * 0.35)` beyond that; it is monotonically
non-increasing in age and always lies in `[0.65, 1]`; an unparseable
holdings-date label (`parseHoldingsDateToTs` = `none`) yields factor 1. -/
theorem freshness_factor_spec :
    (∀ age : ℚ, age ≤ 45 → freshnessOfAge age = 1) ∧
    (∀ age : ℚ, 45 < age →
      freshnessOfAge age = max 0.65 (1 - ((age - 45) / 365) * 0.35)) ∧
    (∀ a b : ℚ, a ≤ b → freshnessOfAge b ≤ freshnessOfAge a) ∧
    (∀ age : ℚ, 0.65 ≤ freshnessOfAge age ∧ freshnessOfAge age ≤ 1) ∧
    (∀ now : ℚ, computeFreshnessFactor none now = 1) := by
  refine ⟨?_, ?_, freshnessOfAge_antitone, ?_, fun _ => rfl⟩
  · intro age h
    unfold freshnessOfAge
    rw [if_pos h]
  · intro age h
    unfold freshnessOfAge
    rw [if_neg (not_le.mpr h)]
  · intro age
    refine ⟨?_, freshnessOfAge_le_one age⟩
    unfold freshnessOfAge
    split
    · norm_num
    · exact le_max_left _ _

/-- C3 witness: the factor evaluated at concrete ages. -/
theorem freshness_factor_spec_witness :
    freshnessOfAge 30 = 1 ∧
    freshnessOfAge 100 = max 0.65 (1 - ((100 - 45) / 365) * 0.35) ∧
    freshnessOfAge 410 ≤ freshnessOfAge 100 ∧
    (0.65 ≤ freshnessOfAge 400 ∧ freshnessOfAge 400 ≤ 1) ∧
    computeFreshnessFactor none 123 = 1 :=
  ⟨freshness_factor_spec.1 30 (by norm_num),
   freshness_factor_spec.2.1 100 (by norm_num),
   freshness_factor_spec.2.2.1 100 410 (by norm_num),
   freshness_factor_spec.2.2.2.1 400,
   freshness_factor_spec.2.2.2.2 123⟩

/-- C4 counterexample: at a report age of exactly 400 days the computed
freshness factor is `963/1460 ≈ 0.6596`, not the floor `0.65`. -/
theorem freshness_400_counterexample :
    freshnessOfAge 400 = 963 / 1460 ∧ (963 / 1460 : ℚ) ≠ 0.65 :=
  ⟨freshnessOfAge_400_eval, by norm_num⟩

/-- C4 amended: at 400 days the freshness factor is `963/1460 ≈ 0.6596`;
the floor `0.65` is reached exactly from age 410 days on (above 410 days
the factor equals 0.65, below it the factor is strictly larger). -/
theorem freshness_floor_amended :
    freshnessOfAge 400 = 963 / 1460 ∧
    (∀ age : ℚ, 410 ≤ age → freshnessOfAge age = 0.65) ∧
    (∀ age : ℚ, age < 410 → 0.65 < freshnessOfAge age) := by
  refine ⟨freshnessOfAge_400_eval, ?_, ?_⟩
  · intro age h
    unfold freshnessOfAge
    rw [if_neg (by linarith : ¬ age ≤ 45)]
    apply max_eq_left
    have : (1 : ℚ) ≤ (age - 45) / 365 := by
      rw [le_div_iff₀ (by norm_num : (0 : ℚ) < 365)]
      linarith
    nlinarith
  · intro age h
    unfold freshnessOfAge
    split
    · norm_num
    · rename_i hh
      push_neg at hh
      apply lt_max_of_lt_right
      have : (age - 45) / 365 < 1 := by
        rw [div_lt_one (by norm_num : (0 : ℚ) < 365)]
        linarith
      nlinarith

/-- C4 amended witness: the floor at 410 days, and a strictly larger value
one day earlier. -/
theorem freshness_floor_amended_witness :
    freshnessOfAge 410 = 0.65 ∧ 0.65 < freshnessOfAge 409 :=
  ⟨freshness_floor_amended.2.1 410 (by norm_num),
   freshness_floor_amended.2.2 409 (by norm_num)⟩

/-- C10: the reconstructed NAV `gsz` of `buildFundEstimate` is present iff
`baseNav` is present, finite (automatic on `ℚ`) and nonzero; a `baseNav`
equal to 0 yields `gsz = none`; and a present `gsz` equals
`baseNav * (1 + gszzl/100)`. -/
theorem gsz_present_iff_baseNav (p : EstimateParams) :
    ((buildFundEstimate p).gsz.isSome ↔ ∃ v, p.baseNav = some v ∧ v ≠ 0) ∧
    (p.baseNav = some 0 → (buildFundEstimate p).gsz = none) ∧
    (∀ g, (buildFundEstimate p).gsz = some g →
      ∃ v z, p.baseNav = some v ∧ (buildFundEstimate p).gszzl = some z ∧
        g = v * (1 + z / 100)) := by
  rcases hb : p.baseNav with _ | v
  · simp [buildFundEstimate, hb]
  · by_cases hv : v = 0
    · subst hv
      simp [buildFundEstimate, hb]
    · refine ⟨?_, ?_, ?_⟩
      · simp only [buildFundEstimate, hb, if_neg hv, Option.isSome_some, true_iff]
        exact ⟨v, rfl, hv⟩
      · intro h0
        exact absurd (Option.some.inj h0) hv
      · intro g hg
        simp only [buildFundEstimate, hb, if_neg hv, Option.some.injEq] at hg
        refine ⟨v, finalReturnOf p * 100, rfl, rfl, ?_⟩
        rw [← hg, mul_div_assoc]
        norm_num

/-- C10 witness: with `baseNav = 1` the sample estimate carries
`gsz = 1 * (1 + gszzl/100)`. -/
theorem gsz_present_iff_baseNav_witness :
    (buildFundEstimate sampleParams).gsz.isSome ∧
    ∃ v z, sampleParams.baseNav = some v ∧
      (buildFundEstimate sampleParams).gszzl = some z ∧
      (509 : ℚ) / 500 = v * (1 + z / 100) :=
  ⟨(gsz_present_iff_baseNav sampleParams).1.mpr ⟨1, rfl, by norm_num⟩,
   (gsz_present_iff_baseNav sampleParams).2.2 (509 / 500) sample_gsz⟩

/-- C5: with no caller-supplied benchmark return and a positive matched
weight, the proxy return is the matched-holdings average, and the blended
final return collapses to `(matchedContribution/matchedWeight) *
equityRatio`, independently of the blend weights. -/
theorem self_fallback_blend (p : EstimateParams)
    (hb : p.benchmarkReturn = none) (hm : 0 < matchedWeightOf p) :
    proxyStockReturnOf p = matchedContribOf p / matchedWeightOf p ∧
    finalReturnOf p = (matchedContribOf p / matchedWeightOf p) * equityRatioOf p := by
  have hp : proxyStockReturnOf p = matchedContribOf p / matchedWeightOf p := by
    unfold proxyStockReturnOf
    rw [hb, if_pos hm]
  refine ⟨hp, ?_⟩
  have hh : holdingsDrivenReturnOf p
      = some ((matchedContribOf p / matchedWeightOf p) * equityRatioOf p) := by
    unfold holdingsDrivenReturnOf
    rw [if_pos hm]
  unfold finalReturnOf proxyWeightOf
  rw [hh]
  unfold proxyDrivenReturnOf
  rw [hp]
  ring

/-- C5 witness: on the sample inputs (no benchmark return, matched weight
0.6) the blend collapses to the matched average times the equity ratio. -/
theorem self_fallback_blend_witness :
    sampleParams.benchmarkReturn = none ∧ 0 < matchedWeightOf sampleParams ∧
    (proxyStockReturnOf sampleParams
        = matchedContribOf sampleParams / matchedWeightOf sampleParams ∧
      finalReturnOf sampleParams
        = (matchedContribOf sampleParams / matchedWeightOf sampleParams) *
            equityRatioOf sampleParams) :=
  ⟨rfl, by rw [sample_matchedWeight]; norm_num,
   self_fallback_blend sampleParams rfl (by rw [sample_matchedWeight]; norm_num)⟩

/-- C9 counterexample: the uppercase input `"SH600000"` is neither a bare
six-digit code nor a lowercase tag-prefixed code, yet the normalizer maps
it to `some "sh600000"` — it is neither passed through unchanged nor
rejected with a no-match result, because the source trims and lowercases
before classifying. -/
theorem normalizeQuoteSymbol_case_counterexample :
    normalizeQuoteSymbol "SH600000" = some "sh600000" ∧
    (some "sh600000" ≠ some ("SH600000" : String)) ∧
    normalizeQuoteSymbol "SH600000" ≠ none := by decide

/-- C9 amended: after trimming and ASCII-lowercasing the input, the
normalizer passes a valid tag-prefixed code (`sh`/`sz`/`bj` + 6 digits)
through as that canonical form, maps a bare six-digit code by leading
digit (6→sh, 0/3→sz, 8/4→bj, anything else → no match), and returns
`none` (never an exception) for every other input. -/
theorem normalizeQuoteSymbol_amended (s : String) :
    (ValidTagged (canonSym s) →
      normalizeQuoteSymbol s = some (String.mk (canonSym s))) ∧
    (Bare6 (canonSym s) → ∀ c cs, canonSym s = c :: cs →
      normalizeQuoteSymbol s =
        (if c = '6' then some (String.mk ('s' :: 'h' :: canonSym s))
         else if c = '0' ∨ c = '3' then some (String.mk ('s' :: 'z' :: canonSym s))
         else if c = '8' ∨ c = '4' then some (String.mk ('b' :: 'j' :: canonSym s))
         else none)) ∧
    (¬ValidTagged (canonSym s) → ¬Bare6 (canonSym s) →
      normalizeQuoteSymbol s = none) := by
  have hdef : normalizeQuoteSymbol s =
      (if canonSym s = [] then none
       else if tagTest (canonSym s) then some (String.mk (canonSym s))
       else if digits6Test (canonSym s) then
        match canonSym s with
        | c :: _ =>
          if c = '6' then some (String.mk ('s' :: 'h' :: canonSym s))
          else if c = '0' ∨ c = '3' then some (String.mk ('s' :: 'z' :: canonSym s))
          else if c = '8' ∨ c = '4' then some (String.mk ('b' :: 'j' :: canonSym s))
          else none
        | [] => none
       else none) := rfl
  refine ⟨?_, ?_, ?_⟩
  · intro hv
    have hne : canonSym s ≠ [] := by
      rcases hv with ⟨t, ds, ht, heq, _, _⟩
      rcases ht with rfl | rfl | rfl <;> simp [heq]
    rw [hdef, if_neg hne, if_pos ((tagTest_iff (canonSym s)).mpr hv)]
  · intro hb c cs hc
    have hne : canonSym s ≠ [] := by rw [hc]; simp
    rw [hdef, if_neg hne]
    rw [show tagTest (canonSym s) = false from bare6_tagTest_false hb]
    rw [if_neg (by simp), if_pos ((digits6Test_iff (canonSym s)).mpr hb), hc]
  · intro hnv hnb
    by_cases hne : canonSym s = []
    · rw [hdef, if_pos hne]
    · rw [hdef, if_neg hne,
        if_neg (fun h => hnv ((tagTest_iff (canonSym s)).mp h)),
        if_neg (fun h => hnb ((digits6Test_iff (canonSym s)).mp h))]

/-- C9 witness: the bare code `"600000"` is mapped to `"sh600000"`. -/
theorem normalizeQuoteSymbol_amended_witness :
    normalizeQuoteSymbol "600000" = some "sh600000" := by
  have hb : Bare6 (canonSym "600000") := ⟨by decide, by decide⟩
  have hc : canonSym "600000" = '6' :: ['0', '0', '0', '0', '0'] := by decide
  have h := (normalizeQuoteSymbol_amended "600000").2.1 hb '6' ['0', '0', '0', '0', '0'] hc
  rw [h]
  decide

/-- C1 counterexample: in `official` mode with no official estimate, a
fund with good holdings and quotes is NOT marked errored — the per-fund
loop surfaces the holdings-driven estimate (a success with
`valuationSource = holdings`), so no "no official source" error path
exists. -/
theorem official_mode_no_error_counterexample :
    ((processFund .official none none "2026-10-10" (some sampleConfig) none sampleQuotes
        none ⟨3, 10, 5, 0, ""⟩ 0 (fun _ => none) "000001").item.status
      = LoadStatus.success) ∧
    ((processFund .official none none "2026-10-10" (some sampleConfig) none sampleQuotes
        none ⟨3, 10, 5, 0, ""⟩ 0 (fun _ => none) "000001").item.errorMessage = none) ∧
    ((processFund .official none none "2026-10-10" (some sampleConfig) none sampleQuotes
        none ⟨3, 10, 5, 0, ""⟩ 0 (fun _ => none) "000001").item.latest
      = some (buildFundEstimate sampleParams)) ∧
    (buildFundEstimate sampleParams).valuationSource = some ValuationSource.holdings := by
  have hoff : useOfficialOf .official none none "2026-10-10" = false := rfl
  have hep : estimateParamsFor sampleConfig sampleQuotes ⟨3, 10, 5, 0, ""⟩ "000001"
      = sampleParams := rfl
  have hcov : ¬ (buildFundEstimate
      (estimateParamsFor sampleConfig sampleQuotes ⟨3, 10, 5, 0, ""⟩ "000001")).coverage ≤ 0 := by
    rw [hep]
    exact sample_coverage_pos
  have h := processFund_item_holdings_success .official none none "2026-10-10" sampleConfig
    sampleQuotes none ⟨3, 10, 5, 0, ""⟩ 0 (fun _ => none) "000001" hoff hcov
  rw [h]
  exact ⟨rfl, rfl, rfl, rfl⟩

/-- C1 amended: in `official` mode, a fund whose official estimate is
absent or not stamped with the current trading day is NOT marked errored;
the per-fund refresh behaves exactly as in `holdings` mode for that fund
(holdings-driven estimate on success, holdings/coverage errors
otherwise). -/
theorem official_mode_fallback_amended
    (bestSource : Option String) (official : Option FundGzEstimate) (todayStr : String)
    (config : Option ParsedConfig) (err : Option String)
    (quotes : String → Option StockQuote) (base : Option FundItemState)
    (clock : WallClock) (startedAt : ℚ) (cache : String → Option String) (code : String)
    (h : isOfficialAvailable official todayStr = false) :
    processFund .official bestSource official todayStr config err quotes base clock
        startedAt cache code
      = processFund .holdings bestSource official todayStr config err quotes base clock
        startedAt cache code := by
  unfold processFund useOfficialOf
  rw [h]

/-- C1 amended witness: the fallback equality at the concrete sample
inputs with the official feed absent. -/
theorem official_mode_fallback_amended_witness :
    processFund .official none none "2026-10-10" (some sampleConfig) none sampleQuotes
        none ⟨3, 10, 5, 0, ""⟩ 0 (fun _ => none) "000001"
      = processFund .holdings none none "2026-10-10" (some sampleConfig) none sampleQuotes
        none ⟨3, 10, 5, 0, ""⟩ 0 (fun _ => none) "000001" :=
  official_mode_fallback_amended none none "2026-10-10" (some sampleConfig) none
    sampleQuotes none ⟨3, 10, 5, 0, ""⟩ 0 (fun _ => none) "000001" rfl

/-- C6: the holdings-path push site of the per-fund loop
(fundStore.ts:448) has no trading-hours gate: on a Saturday evening
(day 6, 20:00, `isTradingTime = false`) an accepted holdings-driven
estimate is still pushed to the intraday recorder, while the
official-path push site (fundStore.ts:383) correctly suppresses the push
at the same clock. -/
theorem intraday_push_outside_trading_hours :
    isTradingTime ⟨6, 20, 0, 0, ""⟩ = false ∧
    (processFund .holdings none none "2026-10-10" (some sampleConfig) none sampleQuotes
        none ⟨6, 20, 0, 0, ""⟩ 0 (fun _ => none) "000001").push
      = some ⟨"000001", "20:00", 9 / 5, some .holdings⟩ ∧
    (processFund .official none (some officialSample) "2026-10-10" (some sampleConfig) none
        sampleQuotes none ⟨6, 20, 0, 0, ""⟩ 0 (fun _ => none) "000001").push = none := by
  refine ⟨rfl, ?_, rfl⟩
  have hoff : useOfficialOf .holdings none none "2026-10-10" = false := rfl
  have hep : estimateParamsFor sampleConfig sampleQuotes ⟨6, 20, 0, 0, ""⟩ "000001"
      = sampleParams := rfl
  have hcov : ¬ (buildFundEstimate
      (estimateParamsFor sampleConfig sampleQuotes ⟨6, 20, 0, 0, ""⟩ "000001")).coverage ≤ 0 := by
    rw [hep]
    exact sample_coverage_pos
  have hcache : ¬ (fun _ : String => (none : Option String))
      ("000001" ++ ":" ++ sourceStr (some .holdings)) = some (timeStrOf ⟨6, 20, 0, 0, ""⟩) := by
    simp
  have h := processFund_push_holdings_success .holdings none none "2026-10-10" sampleConfig
    sampleQuotes none ⟨6, 20, 0, 0, ""⟩ 0 (fun _ => none) "000001" hoff hcov hcache
  rw [h, hep, sample_finalReturn]
  norm_num [timeStrOf, pad2]
  decide

/-- C7: a fund whose estimate has coverage ≤ 0 is marked errored
("行情缺失") for the cycle with its previously stored latest and previous
estimates retained unchanged, and every other fund of the batch still
receives exactly its own independent per-fund outcome. -/
theorem coverage_failure_isolated (mode : ValuationMode) (inputs : String → FundInputs)
    (quotes : String → Option StockQuote) (todayStr : String) (clock : WallClock)
    (startedAt : ℚ) (baseFunds : String → Option FundItemState)
    (cache0 : String → Option String) (codes : List String) (c : String)
    (cfg : ParsedConfig)
    (hnd : codes.Nodup) (hc : c ∈ codes)
    (hcfg : (inputs c).config = some cfg) (herr : (inputs c).err = none)
    (hoff : useOfficialOf mode (inputs c).bestSource (inputs c).official todayStr = false)
    (hcov : (buildFundEstimate (estimateParamsFor cfg quotes clock c)).coverage ≤ 0) :
    ((refreshLoop mode inputs quotes todayStr clock startedAt baseFunds cache0 codes).funds c
      = some { status := .error
               errorMessage := some "行情缺失"
               lastUpdatedAt := some clock.nowTs
               lastRefreshStartedAt := some startedAt
               latest := (baseFunds c).bind (·.latest)
               previous := (baseFunds c).bind (·.previous) }) ∧
    (∀ d ∈ codes,
      (refreshLoop mode inputs quotes todayStr clock startedAt baseFunds cache0 codes).funds d
        = some (itemOf mode inputs quotes todayStr clock startedAt baseFunds d)) := by
  constructor
  · rw [refreshLoop, refreshLoop_funds_mem mode inputs quotes todayStr clock startedAt
      baseFunds codes _ c hnd hc, itemOf, hcfg, herr,
      processFund_item_coverage_fail mode (inputs c).bestSource (inputs c).official todayStr
        cfg quotes (baseFunds c) clock startedAt (fun _ => none) c hoff hcov]
  · intro d hd
    rw [refreshLoop]
    exact refreshLoop_funds_mem mode inputs quotes todayStr clock startedAt baseFunds
      codes _ d hnd hd

/-- C7 witness: a one-fund batch with no quotes at all — coverage is 0,
the fund is marked "行情缺失" and the (empty) stored estimates are
retained. -/
theorem coverage_failure_isolated_witness :
    (refreshLoop .holdings (fun _ => { config := some sampleConfig }) (fun _ => none)
        "2026-10-10" ⟨3, 10, 5, 0, ""⟩ 0 (fun _ => none) (fun _ => none) ["000001"]).funds
        "000001"
      = some { status := .error
               errorMessage := some "行情缺失"
               lastUpdatedAt := some (0 : ℚ)
               lastRefreshStartedAt := some (0 : ℚ)
               latest := none
               previous := none } := by
  have hcov : (buildFundEstimate
      (estimateParamsFor sampleConfig (fun _ => none) ⟨3, 10, 5, 0, ""⟩ "000001")).coverage
      ≤ 0 := by
    have h1 : (buildFundEstimate
        (estimateParamsFor sampleConfig (fun _ => none) ⟨3, 10, 5, 0, ""⟩ "000001")).coverage
        = coverageOf (estimateParamsFor sampleConfig (fun _ => none) ⟨3, 10, 5, 0, ""⟩
            "000001") := rfl
    have h2 : matchedWeightOf (estimateParamsFor sampleConfig (fun _ => none)
        ⟨3, 10, 5, 0, ""⟩ "000001") = 0 := rfl
    rw [h1, coverageOf, h2]
    split <;> simp
  have h := coverage_failure_isolated .holdings (fun _ => { config := some sampleConfig })
    (fun _ => none) "2026-10-10" ⟨3, 10, 5, 0, ""⟩ 0 (fun _ => none) (fun _ => none)
    ["000001"] "000001" sampleConfig (by simp) (by simp) rfl rfl rfl hcov
  exact h.1


/-- C2: for holdings with positive weights, the estimator's coverage is
the matched weight (holdings with a quote whose `prevClose` is positive —
and finite, automatic on `ℚ`) divided by the total disclosed weight, and
coverage is 0 exactly when no holding has a usable quote. -/
theorem coverage_spec (p : EstimateParams)
    (hw : ∀ h ∈ p.holdings, 0 < h.weight) :
    (buildFundEstimate p).coverage = matchedWeightSpec p / totalWeightOf p ∧
    ((buildFundEstimate p).coverage = 0 ↔
      ∀ h ∈ p.holdings, ¬ ∃ q, p.quotes h.symbol = some q ∧ 0 < q.prevClose) := by
  have hcov : (buildFundEstimate p).coverage = coverageOf p := rfl
  have hM : matchedWeightOf p = matchedWeightSpec p := matchedWeightOf_eq_spec p
  by_cases hnil : p.holdings = []
  · have hW : totalWeightOf p = 0 := by rw [totalWeightOf, hnil]; rfl
    have hMS : matchedWeightSpec p = 0 := by rw [matchedWeightSpec, hnil]; rfl
    constructor
    · rw [hcov, coverageOf, hW, hMS]
      norm_num
    · rw [hcov, coverageOf, hW]
      simp [hnil]
  · have hWpos : 0 < totalWeightOf p := by
      rw [totalWeightOf, foldl_add_weight]
      simpa using sum_weights_pos p.holdings hw hnil
    have h1 : coverageOf p = matchedWeightSpec p / totalWeightOf p := by
      rw [coverageOf, if_pos hWpos, hM]
    refine ⟨hcov.trans h1, ?_⟩
    rw [hcov, h1, div_eq_zero_iff]
    constructor
    · rintro (hMz | hWz)
      · rw [matchedWeightSpec] at hMz
        intro h hh
        exact (usableB_false_iff p.quotes h).mp
          (((matched_sum_zero_iff p.quotes p.holdings hw).mp hMz) h hh)
      · exact absurd hWz (ne_of_gt hWpos)
    · intro hall
      left
      rw [matchedWeightSpec]
      exact (matched_sum_zero_iff p.quotes p.holdings hw).mpr
        (fun h hh => (usableB_false_iff p.quotes h).mpr (hall h hh))

/-- C2 witness: the coverage identity evaluated on the sample inputs. -/
theorem coverage_spec_witness :
    (buildFundEstimate sampleParams).coverage
        = matchedWeightSpec sampleParams / totalWeightOf sampleParams ∧
    ((buildFundEstimate sampleParams).coverage = 0 ↔
      ∀ h ∈ sampleParams.holdings,
        ¬ ∃ q, sampleParams.quotes h.symbol = some q ∧ 0 < q.prevClose) :=
  coverage_spec sampleParams (by
    intro h hh
    have hs : sampleParams.holdings = [{ symbol := "sh600000", weight := 0.6 }] := rfl
    rw [hs, List.mem_singleton] at hh
    subst hh
    norm_num)


/-- C8 amended: re-serializing the parsed holdings as `weight*100` percent
strings and reparsing returns exactly the same items provided every parsed
weight exceeds 0.01 (so that its percentage form is parsed back through the
`>1 ⇒ percentage` branch); `render` is any exact numeral rendering, as JS
float printing is. -/
theorem parse_serialize_roundtrip (text : String) (render : ℚ → List Char)
    (hr : ∀ it ∈ parseHoldingsText text, GoodRender render (100 * it.weight))
    (hw : ∀ it ∈ parseHoldingsText text, 1 / 100 < it.weight) :
    parseHoldingsText (String.mk (serializeHoldings render (parseHoldingsText text)))
      = parseHoldingsText text := by
  rw [parse_serialize render (parseHoldingsText text)
    (fun it hit => ⟨(parseHoldingsText_inv text it hit).1,
      (parseHoldingsText_inv text it hit).2.1, hr it hit⟩)]
  have hid : ∀ it ∈ parseHoldingsText text,
      ({ symbol := it.symbol
         weight := if (1 : ℚ) < 100 * it.weight then it.weight
                   else 100 * it.weight } : HoldingItem) = it := by
    intro it hit
    have h100 : (1 : ℚ) < 100 * it.weight := by
      have := hw it hit
      linarith
    have hinv := parseHoldingsText_inv text it hit
    rw [if_pos h100]
    cases it with
    | mk s w n i =>
      have hn : n = none := hinv.2.2.1
      have hi : i = none := hinv.2.2.2
      subst hn
      subst hi
      rfl
  exact (List.map_congr_left hid).trans (List.map_id _)


/-- C8 counterexample: the holdings text `"a: 0.005"` parses to the single
weight `1/200 = 0.5%`; re-serializing that weight as the exact percentage
string `"0.5%"` and reparsing yields weight `1/2` — a 100-fold change, far
outside any floating tolerance — because `toWeight` reads a stripped value
`≤ 1` as an already-normalized fraction. -/
theorem small_weight_roundtrip_counterexample :
    parseHoldingsText "a: 0.005" = [{ symbol := "a", weight := 1 / 200 }] ∧
    GoodRender (fun _ => "0.5".data) (100 * (1 / 200)) ∧
    parseHoldingsText (String.mk (serializeHoldings (fun _ => "0.5".data)
        (parseHoldingsText "a: 0.005")))
      = [{ symbol := "a", weight := 1 / 2 }] ∧
    ((1 : ℚ) / 2) ≠ 1 / 200 := by
  refine ⟨parse_a0005, ⟨by decide, by decide, ?_⟩, ?_, by norm_num⟩
  · show jsNumber "0.5".data = some (100 * (1 / 200))
    rw [jsNumber_05]
    norm_num
  · rw [parse_a0005,
      show serializeHoldings (fun _ => "0.5".data)
        [{ symbol := "a", weight := 1 / 200 }] = ("a: 0.5%" : String).data from rfl]
    exact parse_a05pct

/-- C8 amended witness: the round trip at the concrete text
`"sh600000: 5.5"` (weight 5.5% > 1%), with the exact renderer that prints
`5.5`. -/
theorem parse_serialize_roundtrip_witness :
    parseHoldingsText (String.mk (serializeHoldings (fun _ => "5.5".data)
        (parseHoldingsText "sh600000: 5.5")))
      = parseHoldingsText "sh600000: 5.5" := by
  apply parse_serialize_roundtrip
  · intro it hit
    rw [parse_sh55] at hit
    rcases List.mem_singleton.mp hit with rfl
    refine ⟨by decide, by decide, ?_⟩
    show jsNumber "5.5".data = some (100 * (11 / 200 : ℚ))
    rw [jsNumber_55]
    norm_num
  · intro it hit
    rw [parse_sh55] at hit
    rcases List.mem_singleton.mp hit with rfl
    show (1 : ℚ) / 100 < 11 / 200
    norm_num

end FundMonitor
